import Mathlib

/-!
Verification of the ECoS help generator (`ecoshelpgenerator.py`).

The program connects to an ECoS command station, issues `help(...)` requests
over a line-based text protocol and renders the responses as cross-linked
HTML pages.  This file gives a shallow embedding of the program:

* the device is modelled as a function `device : String -> String` mapping
  the request line sent over the socket to the full decoded response text
  (the concatenation of all bytes read before the idle timeout);
* file writes are modelled as a list of `Page` values accumulated in write
  order; requests are likewise logged in issue order;
* Python exceptions that would abort the run (`TypeError` from writing
  `None`, `ValueError` from `str.index`, `IndexError` from `nav[-1]`)
  are modelled by returning `none`;
* `os.linesep` is the Unix newline `"\n"` (the tool targets Linux);
* the `re.sub` calls are modelled by explicit character-list scanners that
  implement the exact semantics of the patterns used by the source
  (left-to-right non-overlapping matches, `MULTILINE` anchoring of `^` at
  the string start and after each newline, greedy character classes and
  the word-boundary backtracking of `\b`).
-/

set_option maxHeartbeats 1000000

namespace ECoS

/-- A written HTML page: filename, title, body text and navigation
breadcrumb, as passed to `_write_html`. -/
structure Page where
  filename : String
  title : String
  text : String
  nav : List (String × String)
deriving DecidableEq

/-! ### Character classes used by the source's regular expressions -/

/-- Python `\s` (ASCII whitespace as found in protocol text). -/
def isPySpace (c : Char) : Bool :=
  c = ' ' || c = '\t' || c = '\n' || c = '\r' || c = '\x0b' || c = '\x0c'

/-- The character class `[a-z-]` (object-class names). -/
def isLowerHyphen (c : Char) : Bool :=
  ('a' ≤ c && c ≤ 'z') || c = '-'

/-- The character class `[a-z]` (generic help topics). -/
def isLowerAlpha (c : Char) : Bool :=
  'a' ≤ c && c ≤ 'z'

/-- The character class `[a-z0-9-]` (attribute names). -/
def isLowerDigitHyphen (c : Char) : Bool :=
  ('a' ≤ c && c ≤ 'z') || ('0' ≤ c && c ≤ '9') || c = '-'

/-- Python `\w` (word character), used by the `\b` word-boundary assertion. -/
def isWordChar (c : Char) : Bool :=
  ('a' ≤ c && c ≤ 'z') || ('A' ≤ c && c ≤ 'Z') || ('0' ≤ c && c ≤ '9') || c = '_'

/-- Word-ness of the character after a position; out of string counts as
non-word for `\b`. -/
def nextIsWord : Option Char → Bool
  | none => false
  | some c => isWordChar c

/-! ### Line splitting (used to state per-line properties of `MULTILINE` subs) -/

/-- Split a character list at newline characters (like Python's view of
lines for `^` in `MULTILINE` mode); always returns at least one line and
the newline characters are dropped. -/
def splitLines : List Char → List (List Char)
  | [] => [[]]
  | c :: cs =>
    if c = '\n' then [] :: splitLines cs
    else List.modifyHead (fun l => c :: l) (splitLines cs)

/-- Reassemble lines with newline separators; left inverse of `splitLines`. -/
def joinLines : List (List Char) → List Char
  | [] => []
  | [l] => l
  | l :: ls => l ++ '\n' :: joinLines ls

/-! ### Python `str.replace` and the HTML escaping in `_request` -/

/-- Python `str.replace(pat, rep)`: replace all non-overlapping occurrences
left to right.  Fuel-driven so that it reduces in the kernel; the wrapper
supplies sufficient fuel. -/
def pyReplaceF (pat rep : List Char) : Nat → List Char → List Char
  | 0, s => s
  | _ + 1, [] => []
  | fuel + 1, c :: cs =>
    if pat ≠ [] ∧ pat.isPrefixOf (c :: cs) then
      rep ++ pyReplaceF pat rep fuel ((c :: cs).drop pat.length)
    else
      c :: pyReplaceF pat rep fuel cs

/-- Python `s.replace(pat, rep)` for nonempty `pat`. -/
def pyReplace (s pat rep : List Char) : List Char :=
  pyReplaceF pat rep s.length s

/-- `response.replace('<', '&lt;').replace('>', '&gt;')` from `_request`. -/
def htmlEscape (s : String) : String :=
  ⟨pyReplace (pyReplace s.data "<".data "&lt;".data) ">".data "&gt;".data⟩

/-- Per-character view of the escaping: what a single source character
contributes to the escaped output. -/
def escChar (c : Char) : List Char :=
  if c = '<' then "&lt;".data else if c = '>' then "&gt;".data else [c]

/-- Applying `escChar` to every character of a list, in order. -/
def escapeAngles : List Char → List Char
  | [] => []
  | c :: cs => escChar c ++ escapeAngles cs

/-! ### The sentinel-prefix stripping in `_request` -/

/-- Model of `re.sub(r'^#( |)', '', response, flags=re.MULTILINE)`: scan the
text left to right; at every line start (string start or right after a
newline) a leading `'#'` is removed together with at most one following
space; all other characters are copied. -/
def stripSentinelGo : Bool → List Char → List Char
  | _, [] => []
  | true, '#' :: ' ' :: cs => stripSentinelGo false cs
  | true, '#' :: cs => stripSentinelGo false cs
  | _, c :: cs => c :: stripSentinelGo (c = '\n') cs

/-- The sentinel-stripping pass of `_request` (line 109 of the source). -/
def stripSentinel (s : String) : String :=
  ⟨stripSentinelGo true s.data⟩

/-- The spec's description of the stripping, stated per line: the leading
sentinel character `'#'` of a line is removed together with exactly one
following space when one is present; other lines are unchanged. -/
def stripLineSpec : List Char → List Char
  | '#' :: ' ' :: cs => cs
  | '#' :: cs => cs
  | cs => cs

/-- Line-by-line stripping following the spec's words. -/
def stripSentinelSpec (s : String) : String :=
  ⟨joinLines ((splitLines s.data).map stripLineSpec)⟩

/-! ### The protocol client `_request` -/

/-- Python `response.startswith('#')`: the first character of the decoded
response is the sentinel. -/
def startsWithHash (s : String) : Bool :=
  match s.data with
  | '#' :: _ => true
  | _ => false

/-- `ECoSHelpGenerator._request` (lines 97–111): send `command`, collect the
response (abstracted by `device`), return `none` when the decoded response
does not start with the sentinel `'#'`, else strip the line sentinels and
escape angle brackets. -/
def request (device : String → String) (command : String) : Option String :=
  if startsWithHash (device command) then
    some (htmlEscape (stripSentinel (device command)))
  else
    none

/-! ### The receive loop of `_request` (lines 100–105)

The loop `while True: response += self._socket.recv(4096)` exits only via a
`TimeoutError`.  The socket read stream is modelled as `reads : Nat → Option
String`: `reads k = some d` means the `k`-th `recv` call returns data `d`
(the empty string models an orderly peer close) and `reads k = none` means
it raises `TimeoutError`. -/

/-- One iteration of the receive loop: read and accumulate and continue,
or exit the loop with the accumulated response on timeout. -/
def recvStep (reads : Nat → Option String) :
    Nat × String → (Nat × String) ⊕ String
  | (k, acc) =>
    match reads k with
    | some d => Sum.inl (k + 1, acc ++ d)
    | none => Sum.inr acc

/-- The state of the receive loop after `n` iterations: either still looping
with an accumulator, or exited with the full response. -/
def recvIter (reads : Nat → Option String) : Nat → (Nat × String) ⊕ String
  | 0 => Sum.inl (0, "")
  | n + 1 =>
    match recvIter reads n with
    | Sum.inl st => recvStep reads st
    | Sum.inr r => Sum.inr r

/-- The receive loop terminates on the given read stream. -/
def recvTerminates (reads : Nat → Option String) : Prop :=
  ∃ n r, recvIter reads n = Sum.inr r

/-- `ECoSHelpGenerator.COMMANDS` (lines 34–35). -/
def COMMANDS : List String :=
  ["get", "set", "create", "delete", "request", "release", "link",
   "unlink", "queryObjects"]

/-! ### The word-boundary assertion `\b` after a greedy character class

For a pattern `([C]+)\b` the engine first takes the maximal run `r` of
class-`C` characters and then backtracks, dropping trailing characters of
the run until a word boundary holds between the last kept character and the
character that follows it.  `lbp r next` returns the longest nonempty
prefix of `r` that ends at a word boundary (`next` being the character
following the full run), or `none` when no prefix does. -/

/-- Backtracking over the reversed run. -/
def lbpRev : List Char → Option Char → Option (List Char)
  | [], _ => none
  | c :: cs, next =>
    if isWordChar c ≠ nextIsWord next then some (c :: cs)
    else lbpRev cs (some c)

/-- Longest nonempty prefix of `r` ending at a word boundary. -/
def lbp (r : List Char) (next : Option Char) : Option (List Char) :=
  (lbpRev r.reverse next).map List.reverse

/-! ### Effectful substitution callbacks

A substitution callback (the lambdas passed to `re.sub` in the source)
builds further pages: it returns the replacement string, the pages written
during the nested build and the requests issued, or `none` when the nested
build aborts the run with an exception. -/

/-- Result type of the substitution engines: rewritten text, pages written
by the callbacks in order, requests issued in order. -/
abbrev SubOut := Option (List Char × List Page × List String)

/-- Callback type for effectful substitutions. -/
abbrev SubCb := String → Option (String × List Page × List String)

/-! ### `re.sub(r'help\(([a-z]+)\)', ..., txt)` — the generic-topic pass -/

/-- Try to match `help\(([a-z]+)\)` at the current position; on success
return the topic (group 1) and the text after the closing parenthesis. -/
def tryHelpRef (cs : List Char) : Option (List Char × List Char) :=
  match cs with
  | 'h' :: 'e' :: 'l' :: 'p' :: '(' :: cs1 =>
    let tok := cs1.takeWhile isLowerAlpha
    if tok.isEmpty then none
    else
      match cs1.dropWhile isLowerAlpha with
      | ')' :: rest => some (tok, rest)
      | _ => none
  | _ => none

/-- Left-to-right non-overlapping scan for `help\(([a-z]+)\)`; replacement
text returned by the callback is spliced in and not rescanned. -/
def genericSubGo (F : SubCb) : Nat → List Char → SubOut
  | 0, cs => some (cs, [], [])
  | _ + 1, [] => some ([], [], [])
  | fuel + 1, c :: cs =>
    match tryHelpRef (c :: cs) with
    | some (tok, rest) =>
      match F ⟨tok⟩ with
      | none => none
      | some (rep, pg, rq) =>
        match genericSubGo F fuel rest with
        | none => none
        | some (out, pg2, rq2) => some (rep.data ++ out, pg ++ pg2, rq ++ rq2)
    | none =>
      match genericSubGo F fuel cs with
      | none => none
      | some (out, pg2, rq2) => some (c :: out, pg2, rq2)

/-- The generic-topic substitution of `build` (lines 53–55). -/
def genericSub (F : SubCb) (s : String) : Option (String × List Page × List String) :=
  match genericSubGo F s.data.length s.data with
  | none => none
  | some (out, pg, rq) => some (⟨out⟩, pg, rq)

/-! ### `re.sub(r'^(\s+)([a-z-]+)\b', ..., flags=re.MULTILINE)` — object classes -/

/-- Try to match `^(\s+)([a-z-]+)\b` at a position where `^` holds: take the
maximal whitespace run (which may span newlines), then the maximal
`[a-z-]` run, then backtrack for `\b`.  Returns the groups `(\s+)` and
`([a-z-]+)` and the unconsumed rest. -/
def tryClassMatch (cs : List Char) : Option (List Char × List Char × List Char) :=
  let ws := cs.takeWhile isPySpace
  if ws.isEmpty then none
  else
    let cs1 := cs.dropWhile isPySpace
    let r := cs1.takeWhile isLowerHyphen
    if r.isEmpty then none
    else
      let rest := cs1.dropWhile isLowerHyphen
      match lbp r rest.head? with
      | none => none
      | some tok => some (ws, tok, r.drop tok.length ++ rest)

/-- Left-to-right `MULTILINE` scan for `^(\s+)([a-z-]+)\b`; the boolean is
true exactly when `^` holds at the current position (string start or right
after a newline).  The replacement is `\1` followed by the callback's
return value, i.e. the whitespace is preserved and the identifier token is
replaced. -/
def classSubGo (F : SubCb) : Nat → Bool → List Char → SubOut
  | 0, _, cs => some (cs, [], [])
  | _ + 1, _, [] => some ([], [], [])
  | fuel + 1, b, c :: cs =>
    match (if b then tryClassMatch (c :: cs) else none) with
    | some (ws, tok, rest) =>
      match F ⟨tok⟩ with
      | none => none
      | some (rep, pg, rq) =>
        match classSubGo F fuel false rest with
        | none => none
        | some (out, pg2, rq2) => some (ws ++ rep.data ++ out, pg ++ pg2, rq ++ rq2)
    | none =>
      match classSubGo F fuel (c = '\n') cs with
      | none => none
      | some (out, pg2, rq2) => some (c :: out, pg2, rq2)

/-- The object-class substitution of `build` (lines 59–61), applied to
`txt[offset:]`; `^` holds at the start of that slice. -/
def classSub (F : SubCb) (s : String) : Option (String × List Page × List String) :=
  match classSubGo F s.data.length true s.data with
  | none => none
  | some (out, pg, rq) => some (⟨out⟩, pg, rq)

/-! ### `re.sub(r'^(\s{4})([a-z0-9-]+)\b', ..., flags=re.MULTILINE)` — attributes -/

/-- Try to match `^(\s{4})([a-z0-9-]+)\b` at a position where `^` holds:
exactly four whitespace characters, then the maximal `[a-z0-9-]` run, then
`\b` backtracking. -/
def tryAttrMatch (cs : List Char) : Option (List Char × List Char × List Char) :=
  let ws := cs.take 4
  if ws.length = 4 ∧ ws.all isPySpace then
    let cs1 := cs.drop 4
    let r := cs1.takeWhile isLowerDigitHyphen
    if r.isEmpty then none
    else
      let rest := cs1.dropWhile isLowerDigitHyphen
      match lbp r rest.head? with
      | none => none
      | some tok => some (ws, tok, r.drop tok.length ++ rest)
  else none

/-- Left-to-right `MULTILINE` scan for `^(\s{4})([a-z0-9-]+)\b` used on a
per-command response in `_build_object_class_help` (lines 83–85). -/
def attrSubGo (F : SubCb) : Nat → Bool → List Char → SubOut
  | 0, _, cs => some (cs, [], [])
  | _ + 1, _, [] => some ([], [], [])
  | fuel + 1, b, c :: cs =>
    match (if b then tryAttrMatch (c :: cs) else none) with
    | some (ws, tok, rest) =>
      match F ⟨tok⟩ with
      | none => none
      | some (rep, pg, rq) =>
        match attrSubGo F fuel false rest with
        | none => none
        | some (out, pg2, rq2) => some (ws ++ rep.data ++ out, pg ++ pg2, rq ++ rq2)
    | none =>
      match attrSubGo F fuel (c = '\n') cs with
      | none => none
      | some (out, pg2, rq2) => some (c :: out, pg2, rq2)

/-- The attribute substitution applied to a truncated command response. -/
def attrSub (F : SubCb) (s : String) : Option (String × List Page × List String) :=
  match attrSubGo F s.data.length true s.data with
  | none => none
  | some (out, pg, rq) => some (⟨out⟩, pg, rq)

/-! ### `re.sub(r'(Manager: \d+ \()([a-z-]+)(\))', r'\1<a href="\2.html">\2</a>\3', txt)` -/

/-- If `lit` is a literal prefix of `cs`, drop it. -/
def dropLit (lit cs : List Char) : Option (List Char) :=
  if lit.isPrefixOf cs then some (cs.drop lit.length) else none

/-- Try to match `(Manager: \d+ \()([a-z-]+)(\))` at the current position;
returns the digits, the class name and the unconsumed rest. -/
def tryManagerMatch (cs : List Char) : Option (List Char × List Char × List Char) :=
  match dropLit "Manager: ".data cs with
  | none => none
  | some cs1 =>
    let ds := cs1.takeWhile Char.isDigit
    if ds.isEmpty then none
    else
      match dropLit " (".data (cs1.dropWhile Char.isDigit) with
      | none => none
      | some cs2 =>
        let cls := cs2.takeWhile isLowerHyphen
        if cls.isEmpty then none
        else
          match cs2.dropWhile isLowerHyphen with
          | ')' :: rest => some (ds, cls, rest)
          | _ => none

/-- Pure left-to-right scan replacing each `Manager: <n> (<class>)` match by
`Manager: <n> (<a href="<class>.html"><class></a>)` (source line 76). -/
def managerSubGo : Nat → List Char → List Char
  | 0, cs => cs
  | _ + 1, [] => []
  | fuel + 1, c :: cs =>
    match tryManagerMatch (c :: cs) with
    | some (ds, cls, rest) =>
      "Manager: ".data ++ ds ++ " (".data ++
        ("<a href=\"" ++ (⟨cls⟩ : String) ++ ".html\">" ++ (⟨cls⟩ : String) ++ "</a>").data ++
        ')' :: managerSubGo fuel rest
    | none => c :: managerSubGo fuel cs

/-- The header substitution of `_build_object_class_help` (line 76). -/
def managerSub (s : String) : String :=
  ⟨managerSubGo s.data.length s.data⟩

/-! ### Python `str.index` -/

/-- First character index at which `pat` occurs as a contiguous substring of
`s`, or `none` (Python `str.index` raising `ValueError`). -/
def indexOfSub (pat : List Char) : List Char → Option Nat
  | [] => if pat.isEmpty then some 0 else none
  | c :: cs =>
    if pat.isPrefixOf (c :: cs) then some 0
    else (indexOfSub pat cs).map (· + 1)

/-! ### The crawler/renderer -/

/-- Python `str.capitalize`: first character upper-cased, the remaining
characters lower-cased. -/
def pyCapitalize (s : String) : String :=
  match s.data with
  | [] => ""
  | c :: cs => ⟨c.toUpper :: cs.map Char.toLower⟩

/-- `ECoSHelpGenerator._build_generic_help` (lines 65–69).  The request is
issued, the page is written and an anchor-link fragment is returned.  An
absent response means `_write_html` is called with `None` as text, which
raises `TypeError` when written: modelled as `none`. -/
def buildGenericHelp (device : String → String) (topic : String)
    (nav : List (String × String)) : Option (String × List Page × List String) :=
  match request device ("help(" ++ topic ++ ")") with
  | none => none
  | some txt =>
    some ("<a href=\"" ++ (topic ++ ".html") ++ "\">help(" ++ topic ++ ")</a>",
          [⟨topic ++ ".html", pyCapitalize topic, txt,
            nav ++ [(topic, topic ++ ".html")]⟩],
          ["help(" ++ topic ++ ")"])

/-- `ECoSHelpGenerator._build_object_command_help` (lines 91–95).  An absent
response or an empty `nav` (Python `nav[-1]` raising `IndexError`) aborts
the run. -/
def buildObjectCommandHelp (device : String → String)
    (object_class command attr : String)
    (nav : List (String × String)) : Option (String × List Page × List String) :=
  match request device
      ("help(" ++ object_class ++ "," ++ command ++ "," ++ attr ++ ")") with
  | none => none
  | some txt =>
    match nav.getLast? with
    | none => none
    | some last =>
      some ("<a href=\"" ++ (object_class ++ "." ++ command ++ "." ++ attr ++ ".html") ++
              "\">" ++ attr ++ "</a>",
            [⟨object_class ++ "." ++ command ++ "." ++ attr ++ ".html",
              object_class ++ " :: " ++ command ++ " :: " ++ attr, txt,
              nav ++ [(command, last.2 ++ "#" ++ command),
                      (attr, object_class ++ "." ++ command ++ "." ++ attr ++ ".html")]⟩],
            ["help(" ++ object_class ++ "," ++ command ++ "," ++ attr ++ ")"])

/-- The `for command in self.COMMANDS` loop of `_build_object_class_help`
(lines 79–87): for each command issue `help(class,command)`; on an absent
response skip the command; otherwise truncate the response at
`Options for <command> command:` (a missing marker raises `ValueError`),
substitute attribute links (building attribute pages) and append the line
separator, the anchor bookmark and the substituted response to the page
body. -/
def buildClassCommands (device : String → String)
    (object_class filename : String) (nav : List (String × String)) :
    List String → String → Option (String × List Page × List String)
  | [], txt => some (txt, [], [])
  | command :: rest, txt =>
    match request device ("help(" ++ object_class ++ "," ++ command ++ ")") with
    | none =>
      match buildClassCommands device object_class filename nav rest txt with
      | none => none
      | some (t, pg, rq) =>
        some (t, pg, ("help(" ++ object_class ++ "," ++ command ++ ")") :: rq)
    | some response =>
      match indexOfSub ("Options for " ++ command ++ " command:").data response.data with
      | none => none
      | some i =>
        match attrSub
            (fun attr => buildObjectCommandHelp device object_class command
              attr (nav ++ [(object_class, filename)]))
            ⟨response.data.drop i⟩ with
        | none => none
        | some (response2, pg, rq) =>
          match buildClassCommands device object_class filename nav rest
              (txt ++ "\n" ++ "<a id=\"" ++ command ++ "\"></a>" ++ response2) with
          | none => none
          | some (t, pg2, rq2) =>
            some (t, pg ++ pg2,
              (("help(" ++ object_class ++ "," ++ command ++ ")") :: rq) ++ rq2)

/-- `ECoSHelpGenerator._build_object_class_help` (lines 71–89). -/
def buildObjectClassHelp (device : String → String) (object_class : String)
    (nav : List (String × String)) : Option (String × List Page × List String) :=
  match request device ("help(" ++ object_class ++ ")") with
  | none => none
  | some txt0 =>
    match buildClassCommands device object_class (object_class ++ ".html") nav
        COMMANDS (managerSub txt0) with
    | none => none
    | some (txt, pg, rq) =>
      some ("<a href=\"" ++ (object_class ++ ".html") ++ "\">" ++ object_class ++ "</a>",
            pg ++ [⟨object_class ++ ".html", object_class, txt,
                    nav ++ [(object_class, object_class ++ ".html")]⟩],
            ("help(" ++ object_class ++ ")") :: rq)

/-- `ECoSHelpGenerator.build` (lines 44–63): root request, generic-topic
pass, locate `Implemented objectclasses:` (a missing marker raises
`ValueError`), object-class pass on the suffix, write the index page with
an empty breadcrumb.  Returns the pages written and the requests issued,
in order, or `none` when the run aborts. -/
def build (device : String → String) : Option (List Page × List String) :=
  match request device "help()" with
  | none => none
  | some txt =>
    match genericSub
        (fun topic => buildGenericHelp device topic [("index", "index.html")]) txt with
    | none => none
    | some (txt1, pg1, rq1) =>
      match indexOfSub "Implemented objectclasses:".data txt1.data with
      | none => none
      | some offset =>
        match classSub
            (fun cls => buildObjectClassHelp device cls [("index", "index.html")])
            ⟨txt1.data.drop offset⟩ with
        | none => none
        | some (suffix, pg2, rq2) =>
          some (pg1 ++ pg2 ++
                  [⟨"index.html", "Index",
                    (⟨txt1.data.take offset⟩ : String) ++ suffix, []⟩],
                "help()" :: rq1 ++ rq2)

/-! ### The page writer `_write_html` (lines 113–145) -/

/-- The horizontal rule of 80 dashes. -/
def rule80 : String := ⟨List.replicate 80 '-'⟩

/-- Rendering of one breadcrumb item inside the `for item in nav` loop:
items that differ from `nav[-1]` become hyperlinks followed by the
`&raquo;` separator, items equal to `nav[-1]` are written as their bare
label. -/
def navItemHtml (last item : String × String) : String :=
  if item ≠ last then
    "<a href=\"" ++ item.2 ++ "\">" ++ item.1 ++ "</a> &raquo; "
  else item.1

/-- The navigation block of `_write_html` (lines 132–138): rendered only
when the breadcrumb has more than one entry, followed by a divider rule. -/
def renderNav (nav : List (String × String)) : String :=
  if 1 < nav.length then
    String.join (nav.map (navItemHtml (nav.getLastD ("", "")))) ++
      "\n" ++ rule80 ++ "\n\n"
  else ""

/-- The fixed document head written by `_write_html`, with the page title
spliced in (braces of the stylesheet written as escapes). -/
def htmlHead (title : String) : String :=
  "<!doctype html>\n<html>\n<head>\n  <title>" ++ title ++
  " :: ECoSNet protocol documentation</title>\n  <style>\n    @media (prefers-color-scheme: dark)\n    \x7b\n      body \x7b background-color: #111; color: #eee; \x7d\n      a \x7b color: rgb(47, 129, 247); \x7d\n      a:visited \x7b color: #6F01EC; \x7d\n    \x7d\n  </style>\n</head>\n<body>\n<pre>\n"

/-- The fixed attribution footer line. -/
def htmlFooter : String :=
  "\n" ++ rule80 ++ "\n" ++
  "Generated using <a href=\"https://github.com/reinder/ecos-help-generator\">ECoS help generator</a> - For personal use only!" ++
  "</pre></body></html>"

/-- The full document `_write_html` writes for a page. -/
def renderPage (p : Page) : String :=
  htmlHead p.title ++ renderNav p.nav ++ p.text ++ htmlFooter

/-- Joining navigation labels with the `&raquo;` separator, as the spec
describes the navigation line. -/
def navSpecJoin : List String → String
  | [] => ""
  | [x] => x
  | x :: xs => x ++ " &raquo; " ++ navSpecJoin xs

/-- The spec's description of the navigation line (§4.6): all entries but
the last are hyperlinks, the last is plain text, separated by `&raquo;`. -/
def renderNavSpec (nav : List (String × String)) : String :=
  if 1 < nav.length then
    navSpecJoin
      (nav.dropLast.map (fun item => "<a href=\"" ++ item.2 ++ "\">" ++ item.1 ++ "</a>")
        ++ [(nav.getLastD ("", "")).1]) ++
      "\n" ++ rule80 ++ "\n\n"
  else ""

/-! ### Concrete devices used for witnesses and counterexamples -/

/-- A small well-behaved device: one object class `foo` supporting only the
`get` command with a single attribute `attr`. -/
def device1 : String → String
  | "help()" => "#Implemented objectclasses:\n#  foo\n"
  | "help(foo)" => "#Manager: 1 (foo)\n"
  | "help(foo,get)" => "#Options for get command:\n#     attr\n"
  | "help(foo,get,attr)" => "#attr info\n"
  | _ => ""

/-- A device whose root response references the generic topic `index`; this
makes the generated topic page's breadcrumb contain two equal entries. -/
def deviceIdx : String → String
  | "help()" => "#See help(index)\n#Implemented objectclasses:\n"
  | "help(index)" => "#Index help\n"
  | _ => ""

/-- A device whose root response references a generic topic for which the
device then gives no sentinel-prefixed answer. -/
def deviceNoTopic : String → String
  | "help()" => "#See help(foo)\n#Implemented objectclasses:\n"
  | _ => "no sentinel"

/-- A device whose root response lacks the `Implemented objectclasses:`
marker line. -/
def deviceNoMarker : String → String
  | "help()" => "#nothing to see here\n"
  | _ => ""

/-- A device giving a sentinel-prefixed `help(foo,get)` answer that lacks
the `Options for get command:` marker. -/
def deviceNoOptions : String → String
  | "help()" => "#Implemented objectclasses:\n#  foo\n"
  | "help(foo)" => "#Manager: 1 (foo)\n"
  | "help(foo,get)" => "#strange answer\n"
  | _ => ""

/-- A device whose response text contains angle brackets. -/
def deviceAngle : String → String
  | _ => "#a <literal> bracket\n# x > y\n"

/-! ### Auxiliary notions used to state per-line and per-character facts -/

/-- Single-character replacement: the effect of Python `str.replace` with a
one-character pattern. -/
def replChar (p : Char) (rep : List Char) : List Char → List Char
  | [] => []
  | c :: cs => (if c = p then rep else [c]) ++ replChar p rep cs

/-- The state-dependent line-wise description of the stripping scan: at a
line start every line is stripped per the spec's words; mid-line the
current line's remainder is kept unchanged and all later lines are
stripped. -/
def stripSpecGo (b : Bool) (cs : List Char) : List Char :=
  if b then joinLines ((splitLines cs).map stripLineSpec)
  else joinLines ((splitLines cs).headD [] :: ((splitLines cs).tail).map stripLineSpec)

/-- A line that begins with a run of leading whitespace followed by a
maximal lowercase-and-hyphen identifier token ending at a word boundary —
the per-line reading of `^(\s+)([a-z-]+)\b`. -/
def ClassLineGood (ℓ ws tok rest : List Char) : Prop :=
  ℓ = ws ++ tok ++ rest ∧ ws ≠ [] ∧ ws.all isPySpace = true ∧
  tok ≠ [] ∧ tok.all isLowerHyphen = true ∧
  (∀ c, rest.head? = some c → isLowerHyphen c = false) ∧
  (∃ cl, tok.getLast? = some cl ∧ isWordChar cl = true) ∧
  (∀ c, rest.head? = some c → isWordChar c = false)

/-- Lines of a concatenation: the last line of the first part merges with
the first line of the second part. -/
def glueLines : List (List Char) → List (List Char) → List (List Char)
  | [], ys => ys
  | [x], ys => List.modifyHead (fun l => x ++ l) ys
  | x :: xs, ys => x :: glueLines xs ys

/-! ## Basic facts about line splitting -/

theorem splitLines_ne_nil (cs : List Char) : splitLines cs ≠ [] := by
  induction cs with
  | nil => simp [splitLines]
  | cons c cs ih =>
    simp only [splitLines]
    split
    · simp
    · cases h : splitLines cs with
      | nil => exact absurd h ih
      | cons l ls => simp [List.modifyHead]

/-! ## Claim C10 — the receive loop never exits without a timeout -/

/-- As long as no read of the stream has raised a timeout, the receive loop
is still running. -/
theorem recvIter_no_timeout (reads : Nat → Option String) :
    ∀ n, (∀ m, m < n → reads m ≠ none) →
      ∃ acc, recvIter reads n = Sum.inl (n, acc) := by
  intro n
  induction n with
  | zero => exact fun _ => ⟨"", rfl⟩
  | succ n ih =>
    intro h
    obtain ⟨acc, hacc⟩ := ih (fun m hm => h m (Nat.lt_succ_of_lt hm))
    cases hr : reads n with
    | none => exact absurd hr (h n (Nat.lt_succ_self n))
    | some d => exact ⟨acc ++ d, by simp [recvIter, hacc, recvStep, hr]⟩

/-- If the receive loop has exited, some read raised a timeout. -/
theorem recvIter_inr_timeout (reads : Nat → Option String) :
    ∀ n r, recvIter reads n = Sum.inr r → ∃ m, reads m = none := by
  intro n
  induction n with
  | zero => intro r h; simp [recvIter] at h
  | succ n ih =>
    intro r h
    simp only [recvIter] at h
    cases hit : recvIter reads n with
    | inl st =>
      rw [hit] at h
      obtain ⟨k, acc⟩ := st
      simp only [recvStep] at h
      cases hr : reads k with
      | none => exact ⟨k, hr⟩
      | some d => rw [hr] at h; simp at h
    | inr r2 => rw [hit] at h; exact ih r2 hit

/-- C10: the receive loop of `_request` terminates exactly when some read
attempt raises a timeout; on a stream whose reads all return empty byte
strings (an orderly peer close, never timing out) the loop never
terminates even though the data received is finite. -/
theorem C10_recv_loop_nontermination :
    (∀ reads : Nat → Option String,
        recvTerminates reads ↔ ∃ n, reads n = none) ∧
    (∀ reads : Nat → Option String,
        (∀ n, reads n = some "") → ¬ recvTerminates reads) := by
  have fwd : ∀ reads : Nat → Option String,
      recvTerminates reads → ∃ n, reads n = none := by
    rintro reads ⟨n, r, h⟩
    exact recvIter_inr_timeout reads n r h
  have bwd : ∀ reads : Nat → Option String,
      (∃ n, reads n = none) → recvTerminates reads := by
    intro reads h
    obtain ⟨acc, hacc⟩ :=
      recvIter_no_timeout reads (Nat.find h) (fun m hm => Nat.find_min h hm)
    exact ⟨Nat.find h + 1, acc,
      by simp [recvIter, hacc, recvStep, Nat.find_spec h]⟩
  refine ⟨fun reads => ⟨fwd reads, bwd reads⟩, fun reads hr hterm => ?_⟩
  obtain ⟨n, hn⟩ := fwd reads hterm
  rw [hr n] at hn
  exact Option.noConfusion hn

/-- Witness for C10 at the concrete orderly-close stream. -/
theorem C10_recv_loop_nontermination_witness :
    ¬ recvTerminates (fun _ => some "") :=
  C10_recv_loop_nontermination.2 (fun _ => some "") (fun _ => rfl)

/-! ## Claim C1 — absent responses -/

/-- C1 as stated is false: an absent response to a generic-topic request
makes the run fail (Python passes `None` to `_write_html`, raising
`TypeError`) instead of skipping the sub-page.  With `deviceNoTopic` the
topic `foo` referenced by the root response gets no sentinel-prefixed
answer and the whole build aborts. -/
theorem C1_request_absent_counterexample :
    build deviceNoTopic = none ∧
    request deviceNoTopic "help(foo)" = none ∧
    ¬ startsWithHash (deviceNoTopic "help(foo)") :=
  ⟨by decide, by decide, by decide⟩

/-- C1 (amended): a request returns absent exactly when the full decoded
response does not begin with the sentinel `'#'`.  For the per-command
`help(class,command)` requests an absent result is a normal negative
outcome: the command is skipped, contributing no page text and no pages.
For root, generic-topic, object-class and attribute requests an absent
result aborts the run. -/
theorem C1_request_absent_corrected :
    (∀ (device : String → String) (command : String),
        request device command = none ↔ ¬ startsWithHash (device command)) ∧
    (∀ (device : String → String) (object_class filename command : String)
        (nav : List (String × String)) (rest : List String) (txt : String),
        request device ("help(" ++ object_class ++ "," ++ command ++ ")") = none →
        buildClassCommands device object_class filename nav (command :: rest) txt =
          (match buildClassCommands device object_class filename nav rest txt with
           | none => none
           | some (t, pg, rq) =>
             some (t, pg, ("help(" ++ object_class ++ "," ++ command ++ ")") :: rq))) ∧
    (∀ (device : String → String) (topic : String) (nav : List (String × String)),
        request device ("help(" ++ topic ++ ")") = none →
        buildGenericHelp device topic nav = none) ∧
    (∀ (device : String → String) (object_class : String)
        (nav : List (String × String)),
        request device ("help(" ++ object_class ++ ")") = none →
        buildObjectClassHelp device object_class nav = none) ∧
    (∀ (device : String → String) (object_class command attr : String)
        (nav : List (String × String)),
        request device
            ("help(" ++ object_class ++ "," ++ command ++ "," ++ attr ++ ")") = none →
        buildObjectCommandHelp device object_class command attr nav = none) ∧
    (∀ device : String → String,
        request device "help()" = none → build device = none) := by
  refine ⟨?_, ?_, ?_, ?_, ?_, ?_⟩
  · intro device command
    unfold request
    by_cases h : startsWithHash (device command) <;> simp [h]
  · intro device oc fn cmd nav rest txt h
    simp [buildClassCommands, h]
  · intro device topic nav h
    simp [buildGenericHelp, h]
  · intro device oc nav h
    simp [buildObjectClassHelp, h]
  · intro device oc cmd at0 nav h
    simp [buildObjectCommandHelp, h]
  · intro device h
    simp [build, h]

/-- Witness for C1 (amended) at concrete inputs. -/
theorem C1_request_absent_corrected_witness :
    (request device1 "help(bar)" = none ↔
      ¬ startsWithHash (device1 "help(bar)")) ∧
    buildGenericHelp deviceNoTopic "foo" [("index", "index.html")] = none ∧
    build (fun _ => "") = none := by
  refine ⟨?_, ?_, ?_⟩
  · exact C1_request_absent_corrected.1 device1 "help(bar)"
  · exact C1_request_absent_corrected.2.2.1 deviceNoTopic "foo"
      [("index", "index.html")] (by decide)
  · exact C1_request_absent_corrected.2.2.2.2.2 (fun _ => "") (by decide)

/-! ## Claim C4 — missing structural markers are fatal -/

/-- If any command of the list gets a sentinel-prefixed response that lacks
its `Options for <command> command:` marker, the command loop aborts
(Python `str.index` raising `ValueError`). -/
theorem buildClassCommands_missing_options (device : String → String)
    (object_class filename : String) (nav : List (String × String)) :
    ∀ (cmds : List String) (txt : String),
      (∃ cmd ∈ cmds, ∃ r,
        request device ("help(" ++ object_class ++ "," ++ cmd ++ ")") = some r ∧
        indexOfSub ("Options for " ++ cmd ++ " command:").data r.data = none) →
      buildClassCommands device object_class filename nav cmds txt = none := by
  intro cmds
  induction cmds with
  | nil =>
    rintro txt ⟨cmd, h, _⟩
    simp at h
  | cons c rest ih =>
    rintro txt ⟨cmd, hmem, r, hreq, hidx⟩
    rcases List.mem_cons.mp hmem with rfl | hmem
    · simp only [buildClassCommands, hreq, hidx]
    · simp only [buildClassCommands]
      cases hr : request device ("help(" ++ object_class ++ "," ++ c ++ ")") with
      | none => simp only [ih txt ⟨cmd, hmem, r, hreq, hidx⟩]
      | some r2 =>
        cases hi : indexOfSub ("Options for " ++ c ++ " command:").data r2.data with
        | none => simp only [hi]
        | some i =>
          cases ha : attrSub
              (fun attr => buildObjectCommandHelp device object_class c attr
                (nav ++ [(object_class, filename)]))
              ⟨r2.data.drop i⟩ with
          | none => simp only [hi, ha]
          | some out =>
            obtain ⟨resp2, pg, rq⟩ := out
            simp only [hi, ha, ih _ ⟨cmd, hmem, r, hreq, hidx⟩]

/-- C4: a root help response (after the generic-topic pass) without the
`Implemented objectclasses:` marker line, or a non-absent (class, command)
response without the `Options for <command> command:` substring, makes the
run fail fatally; class and attribute discovery are never silently
skipped. -/
theorem C4_missing_marker_fatal :
    (∀ (device : String → String) (t0 t1 : String) (pg : List Page)
        (rq : List String),
        request device "help()" = some t0 →
        genericSub (fun topic => buildGenericHelp device topic
          [("index", "index.html")]) t0 = some (t1, pg, rq) →
        indexOfSub "Implemented objectclasses:".data t1.data = none →
        build device = none) ∧
    (∀ (device : String → String) (object_class : String)
        (nav : List (String × String)),
        (∃ cmd ∈ COMMANDS, ∃ r,
          request device ("help(" ++ object_class ++ "," ++ cmd ++ ")") = some r ∧
          indexOfSub ("Options for " ++ cmd ++ " command:").data r.data = none) →
        buildObjectClassHelp device object_class nav = none) := by
  constructor
  · intro device t0 t1 pg rq h0 h1 h2
    simp [build, h0, h1, h2]
  · intro device oc nav hbad
    simp only [buildObjectClassHelp]
    cases hr : request device ("help(" ++ oc ++ ")") with
    | none => rfl
    | some txt0 =>
      simp [buildClassCommands_missing_options device oc (oc ++ ".html") nav
        COMMANDS (managerSub txt0) hbad]

/-- Witness for C4 at concrete devices: `deviceNoMarker` lacks the
object-class marker, `deviceNoOptions` answers `help(foo,get)` without the
options marker. -/
theorem C4_missing_marker_fatal_witness :
    build deviceNoMarker = none ∧
    buildObjectClassHelp deviceNoOptions "foo" [("index", "index.html")] = none := by
  constructor
  · exact C4_missing_marker_fatal.1 deviceNoMarker "nothing to see here\n"
      "nothing to see here\n" [] [] (by decide) (by decide) (by decide)
  · exact C4_missing_marker_fatal.2 deviceNoOptions "foo" [("index", "index.html")]
      ⟨"get", by decide, "strange answer\n", by decide, by decide⟩

/-! ## Claim C5 — HTML escaping of angle brackets -/

theorem pyReplaceF_single (p : Char) (rep : List Char) :
    ∀ (fuel : Nat) (cs : List Char), cs.length ≤ fuel →
      pyReplaceF [p] rep fuel cs = replChar p rep cs := by
  intro fuel
  induction fuel with
  | zero =>
    intro cs h
    have hnil : cs = [] := List.eq_nil_of_length_eq_zero (Nat.le_zero.mp h)
    subst hnil; rfl
  | succ fuel ih =>
    intro cs h
    cases cs with
    | nil => rfl
    | cons c cs =>
      have hlen : cs.length ≤ fuel := by
        simpa using Nat.le_of_succ_le_succ h
      simp only [pyReplaceF, replChar]
      by_cases hc : c = p
      · subst hc
        rw [if_pos ⟨List.cons_ne_nil _ [], by simp [List.isPrefixOf]⟩, if_pos rfl]
        simp [ih cs hlen]
      · rw [if_neg, if_neg hc]
        · simp [ih cs hlen]
        · rintro ⟨-, hpre⟩
          simp [List.isPrefixOf] at hpre
          exact hc hpre.symm

theorem replChar_append (p : Char) (rep : List Char) (a b : List Char) :
    replChar p rep (a ++ b) = replChar p rep a ++ replChar p rep b := by
  induction a with
  | nil => rfl
  | cons c a ih => simp [replChar, ih]

theorem replChar_escape (cs : List Char) :
    replChar '>' "&gt;".data (replChar '<' "&lt;".data cs) = escapeAngles cs := by
  induction cs with
  | nil => rfl
  | cons c cs ih =>
    simp only [replChar, escapeAngles]
    rw [replChar_append, ih]
    congr 1
    by_cases h1 : c = '<'
    · subst h1; rfl
    · by_cases h2 : c = '>'
      · subst h2; rfl
      · simp [escChar, replChar, h1, h2]

theorem htmlEscape_eq_escapeAngles (s : String) :
    htmlEscape s = ⟨escapeAngles s.data⟩ := by
  unfold htmlEscape pyReplace
  rw [show "<".data = ['<'] from rfl, show ">".data = ['>'] from rfl,
    pyReplaceF_single '<' _ _ _ (Nat.le_refl _),
    pyReplaceF_single '>' _ _ _ (Nat.le_refl _), replChar_escape]

theorem escChar_no_angle (c : Char) : '<' ∉ escChar c ∧ '>' ∉ escChar c := by
  unfold escChar
  split_ifs with h1 h2
  · exact ⟨by decide, by decide⟩
  · exact ⟨by decide, by decide⟩
  · exact ⟨fun h => h1 (List.mem_singleton.mp h).symm,
           fun h => h2 (List.mem_singleton.mp h).symm⟩

theorem escapeAngles_no_angle (cs : List Char) :
    '<' ∉ escapeAngles cs ∧ '>' ∉ escapeAngles cs := by
  induction cs with
  | nil => simp [escapeAngles]
  | cons c cs ih =>
    simp only [escapeAngles, List.mem_append]
    exact ⟨fun h => h.elim (fun h1 => (escChar_no_angle c).1 h1) (fun h1 => ih.1 h1),
           fun h => h.elim (fun h1 => (escChar_no_angle c).2 h1) (fun h1 => ih.2 h1)⟩

/-- Stripping the line sentinels removes only `'#'` and `' '` characters:
the count of any other character is unchanged. -/
theorem stripSentinelGo_count (x : Char) (hx1 : x ≠ '#') (hx2 : x ≠ ' ') :
    ∀ (b : Bool) (cs : List Char), (stripSentinelGo b cs).count x = cs.count x := by
  intro b cs
  induction b, cs using stripSentinelGo.induct with
  | case1 b => cases b <;> simp [stripSentinelGo]
  | case2 cs ih => simp [stripSentinelGo, List.count_cons, ih, hx1, hx2]
  | case3 cs h ih => simp [stripSentinelGo, List.count_cons, ih, hx1, hx2]
  | case4 b c cs h1 h2 ih => simp [stripSentinelGo, List.count_cons, ih]

/-- C5: for every valid (sentinel-prefixed) response, the text returned by
the request operation is the sentinel-stripped response with each literal
`'<'`/`'>'` character independently replaced, exactly once, by its HTML
entity; the returned text contains no literal angle bracket, and the
stripping step preserves every angle bracket of the raw response. -/
theorem C5_escaping_once :
    ∀ (device : String → String) (command t : String),
      request device command = some t →
      t.data = escapeAngles (stripSentinel (device command)).data ∧
      '<' ∉ t.data ∧ '>' ∉ t.data ∧
      (stripSentinel (device command)).data.count '<' = (device command).data.count '<' ∧
      (stripSentinel (device command)).data.count '>' = (device command).data.count '>' := by
  intro device command t h
  unfold request at h
  split at h
  case isTrue hs =>
    injection h with h
    subst h
    rw [htmlEscape_eq_escapeAngles]
    refine ⟨rfl, (escapeAngles_no_angle _).1, (escapeAngles_no_angle _).2, ?_, ?_⟩
    · exact stripSentinelGo_count '<' (by decide) (by decide) true (device command).data
    · exact stripSentinelGo_count '>' (by decide) (by decide) true (device command).data
  case isFalse => cases h

/-- Witness for C5 at `deviceAngle`, whose response contains literal angle
brackets. -/
theorem C5_escaping_once_witness :
    ("a &lt;literal&gt; bracket\nx &gt; y\n" : String).data =
      escapeAngles (stripSentinel (deviceAngle "help()")).data ∧
    '<' ∉ ("a &lt;literal&gt; bracket\nx &gt; y\n" : String).data ∧
    '>' ∉ ("a &lt;literal&gt; bracket\nx &gt; y\n" : String).data ∧
    (stripSentinel (deviceAngle "help()")).data.count '<' =
      (deviceAngle "help()").data.count '<' ∧
    (stripSentinel (deviceAngle "help()")).data.count '>' =
      (deviceAngle "help()").data.count '>' :=
  C5_escaping_once deviceAngle "help()" "a &lt;literal&gt; bracket\nx &gt; y\n"
    (by decide)

/-! ## Claim C6 — line-prefix stripping equals the per-line description -/

theorem splitLines_cons_ne (c : Char) (cs : List Char) (h : ¬ c = '\n') :
    splitLines (c :: cs) = List.modifyHead (fun l => c :: l) (splitLines cs) := by
  simp [splitLines, h]

theorem splitLines_cons_nl (cs : List Char) :
    splitLines ('\n' :: cs) = [] :: splitLines cs := by
  simp [splitLines]

theorem joinLines_cons_cons (c : Char) (l : List Char) (ls : List (List Char)) :
    joinLines ((c :: l) :: ls) = c :: joinLines (l :: ls) := by
  cases ls with
  | nil => rfl
  | cons m ms => rfl

theorem stripSentinelGo_eq_spec :
    ∀ (b : Bool) (cs : List Char), stripSentinelGo b cs = stripSpecGo b cs := by
  intro b cs
  induction b, cs using stripSentinelGo.induct with
  | case1 b => cases b <;> rfl
  | case2 cs ih =>
    cases hs : splitLines cs with
    | nil => exact absurd hs (splitLines_ne_nil cs)
    | cons l ls =>
      have e : splitLines ('#' :: ' ' :: cs) = ('#' :: ' ' :: l) :: ls := by
        rw [splitLines_cons_ne '#' _ (by decide), splitLines_cons_ne ' ' _ (by decide),
          hs]
        rfl
      rw [stripSentinelGo.eq_2, ih]
      simp only [stripSpecGo, if_true, if_false, e, hs, Bool.false_eq_true, ite_false,
        ite_true, List.map_cons, List.headD_cons, List.tail_cons]
      rw [stripLineSpec.eq_1]
  | case3 cs h ih =>
    rw [stripSentinelGo.eq_3 cs h, ih]
    cases cs with
    | nil => rfl
    | cons d cs2 =>
      have hd : ¬ d = ' ' := fun hdd => h cs2 (by rw [hdd])
      by_cases hdn : d = '\n'
      · subst hdn
        cases hs : splitLines cs2 with
        | nil => exact absurd hs (splitLines_ne_nil cs2)
        | cons l2 ls2 =>
          have e1 : splitLines ('\n' :: cs2) = [] :: l2 :: ls2 := by
            rw [splitLines_cons_nl, hs]
          have e2 : splitLines ('#' :: '\n' :: cs2) = ['#'] :: l2 :: ls2 := by
            rw [splitLines_cons_ne '#' _ (by decide), e1]; rfl
          simp only [stripSpecGo, Bool.false_eq_true, ite_false, ite_true, e1, e2,
            List.map_cons, List.headD_cons, List.tail_cons]
          rw [show stripLineSpec ['#'] = [] from rfl]
      · cases hs : splitLines cs2 with
        | nil => exact absurd hs (splitLines_ne_nil cs2)
        | cons l2 ls2 =>
          have e1 : splitLines (d :: cs2) = (d :: l2) :: ls2 := by
            rw [splitLines_cons_ne d _ hdn, hs]; rfl
          have e2 : splitLines ('#' :: d :: cs2) = ('#' :: d :: l2) :: ls2 := by
            rw [splitLines_cons_ne '#' _ (by decide), e1]; rfl
          have e3 : stripLineSpec ('#' :: d :: l2) = d :: l2 := by
            have : ∀ cs_1 : List Char, d :: l2 = ' ' :: cs_1 → False := by
              intro cs_1 hx
              simp only [List.cons.injEq] at hx
              exact hd hx.1
            exact stripLineSpec.eq_2 (d :: l2) this
          simp only [stripSpecGo, Bool.false_eq_true, ite_false, ite_true, e1, e2,
            List.map_cons, List.headD_cons, List.tail_cons, e3]
  | case4 b c cs h1 h2 ih =>
    rw [stripSentinelGo.eq_4 b c cs h1 h2, ih]
    cases hs : splitLines cs with
    | nil => exact absurd hs (splitLines_ne_nil cs)
    | cons l ls =>
      by_cases hcn : c = '\n'
      · subst hcn
        have e1 : splitLines ('\n' :: cs) = [] :: l :: ls := by
          rw [splitLines_cons_nl, hs]
        rw [show decide (('\n' : Char) = '\n') = true from by decide]
        cases b with
        | true =>
          simp only [stripSpecGo, ite_true, e1, hs, List.map_cons]
          rfl
        | false =>
          simp only [stripSpecGo, Bool.false_eq_true, ite_false, ite_true, e1, hs,
            List.headD_cons, List.tail_cons]
          rfl
      · have e1 : splitLines (c :: cs) = (c :: l) :: ls := by
          rw [splitLines_cons_ne c _ hcn, hs]; rfl
        have hdec : (decide (c = '\n')) = false := by
          simp [hcn]
        rw [hdec]
        cases b with
        | true =>
          have hc : ¬ c = '#' := fun hcc => h2 rfl hcc
          have e3 : stripLineSpec (c :: l) = c :: l := by
            have k1 : ∀ cs_1 : List Char, c :: l = '#' :: ' ' :: cs_1 → False := by
              intro cs_1 hx
              simp only [List.cons.injEq] at hx
              exact hc hx.1
            have k2 : ∀ cs_1 : List Char, c :: l = '#' :: cs_1 → False := by
              intro cs_1 hx
              simp only [List.cons.injEq] at hx
              exact hc hx.1
            exact stripLineSpec.eq_3 (c :: l) k1 k2
          simp only [stripSpecGo, ite_true, Bool.false_eq_true, ite_false, e1, hs,
            List.map_cons, List.headD_cons, List.tail_cons, e3]
          rw [joinLines_cons_cons]
        | false =>
          simp only [stripSpecGo, Bool.false_eq_true, ite_false, e1, hs,
            List.headD_cons, List.tail_cons]
          rw [joinLines_cons_cons]

/-- The regex model of the stripping and the spec's per-line description
coincide. -/
theorem stripSentinel_eq_spec (s : String) :
    stripSentinel s = stripSentinelSpec s := by
  unfold stripSentinel stripSentinelSpec
  rw [stripSentinelGo_eq_spec true s.data]
  unfold stripSpecGo
  rw [if_pos rfl]

/-- C6 as stated is false: the returned text is additionally HTML-escaped,
so on a response containing angle brackets the remainder of a line is not
unchanged.  `deviceAngle` returns `#a <literal> bracket\n# x > y\n`, whose
stripped text differs from the text the request operation returns. -/
theorem C6_line_prefix_strip_counterexample :
    request deviceAngle "help()" = some "a &lt;literal&gt; bracket\nx &gt; y\n" ∧
    stripSentinelSpec (deviceAngle "help()") = "a <literal> bracket\nx > y\n" ∧
    ("a &lt;literal&gt; bracket\nx &gt; y\n" : String) ≠
      "a <literal> bracket\nx > y\n" :=
  ⟨by decide, by decide, by decide⟩

/-- C6 (amended): for every valid (sentinel-prefixed) response, the
returned text equals the decoded response with, on every line beginning
with the sentinel `'#'`, that sentinel removed together with exactly one
following space when one is present, followed by the HTML escaping of
every literal angle bracket; apart from that escaping the remainder of
every line is unchanged. -/
theorem C6_line_prefix_strip_corrected :
    ∀ (device : String → String) (command t : String),
      request device command = some t →
      t = htmlEscape (stripSentinelSpec (device command)) := by
  intro device command t h
  unfold request at h
  split at h
  · injection h with h
    rw [← h, ← stripSentinel_eq_spec]
  · cases h

/-- Witness for C6 (amended) at `device1`. -/
theorem C6_line_prefix_strip_corrected_witness :
    ("Implemented objectclasses:\n foo\n" : String) =
      htmlEscape (stripSentinelSpec (device1 "help()")) :=
  C6_line_prefix_strip_corrected device1 "help()" _ (by decide)

/-! ## Claim C9 — filenames are deterministic and collision-free -/

theorem string_append_right_cancel (a b c : String) (h : a ++ c = b ++ c) :
    a = b := by
  apply String.ext
  have hd := congrArg String.data h
  rw [String.data_append, String.data_append] at hd
  exact List.append_cancel_right hd

/-- Splitting at a separator character is unambiguous when the parts before
the separator do not contain it. -/
theorem eq_of_append_sep (sep : Char) :
    ∀ (a b u v : List Char), sep ∉ a → sep ∉ b →
      a ++ sep :: u = b ++ sep :: v → a = b ∧ u = v := by
  intro a
  induction a with
  | nil =>
    intro b u v _ hb h
    cases b with
    | nil => simpa using h
    | cons d bs =>
      simp only [List.nil_append, List.cons_append, List.cons.injEq] at h
      obtain ⟨h1, -⟩ := h
      subst h1
      exact absurd (List.mem_cons_self _ _) hb
  | cons x a ih =>
    intro b u v ha hb h
    cases b with
    | nil =>
      simp only [List.cons_append, List.nil_append, List.cons.injEq] at h
      obtain ⟨h1, -⟩ := h
      subst h1
      exact absurd (List.mem_cons_self _ _) ha
    | cons y b =>
      simp only [List.cons_append, List.cons.injEq] at h
      obtain ⟨hxy, h2⟩ := h
      obtain ⟨hab, huv⟩ := ih b u v (fun hm => ha (List.mem_cons_of_mem x hm))
        (fun hm => hb (List.mem_cons_of_mem y hm)) h2
      exact ⟨by rw [hxy, hab], huv⟩

/-- Distinct dot-free (class, command, attribute) triples give distinct
attribute-page filenames. -/
theorem dotted_filename_inj (c c2 m m2 a a2 : String)
    (hc : '.' ∉ c.data) (hc2 : '.' ∉ c2.data) (hm : '.' ∉ m.data)
    (hm2 : '.' ∉ m2.data) (ha : '.' ∉ a.data) (ha2 : '.' ∉ a2.data)
    (h : c ++ "." ++ m ++ "." ++ a ++ ".html" =
        c2 ++ "." ++ m2 ++ "." ++ a2 ++ ".html") :
    c = c2 ∧ m = m2 ∧ a = a2 := by
  have hd := congrArg String.data h
  simp only [String.data_append] at hd
  simp only [List.singleton_append, List.cons_append, List.nil_append,
    List.append_assoc] at hd
  obtain ⟨h1, hd⟩ := eq_of_append_sep '.' _ _ _ _ hc hc2 hd
  obtain ⟨h2, hd⟩ := eq_of_append_sep '.' _ _ _ _ hm hm2 hd
  obtain ⟨h3, -⟩ := eq_of_append_sep '.' _ _ _ _ ha ha2 hd
  exact ⟨String.ext h1, String.ext h2, String.ext h3⟩

/-- C9: every page filename is the deterministic dotted-path function of
the identifiers that produced it — `<topic>.html` for generic topics,
`<class>.html` for object classes, `<class>.<command>.<attribute>.html`
for attributes — and on dot-free identifiers (the protocol tokens are
matched by `[a-z]`/`[a-z-]`/`[a-z0-9-]` classes, which exclude `'.'`)
these functions are injective, so distinct identifiers give distinct
filenames. -/
theorem C9_filename_injective :
    (∀ (device : String → String) (topic : String) (nav : List (String × String))
        (r : String) (pg : List Page) (rq : List String),
        buildGenericHelp device topic nav = some (r, pg, rq) →
        pg.map Page.filename = [topic ++ ".html"]) ∧
    (∀ (device : String → String) (object_class : String)
        (nav : List (String × String))
        (r : String) (pg : List Page) (rq : List String),
        buildObjectClassHelp device object_class nav = some (r, pg, rq) →
        ∃ p, pg.getLast? = some p ∧ p.filename = object_class ++ ".html") ∧
    (∀ (device : String → String) (object_class command attr : String)
        (nav : List (String × String))
        (r : String) (pg : List Page) (rq : List String),
        buildObjectCommandHelp device object_class command attr nav =
          some (r, pg, rq) →
        pg.map Page.filename =
          [object_class ++ "." ++ command ++ "." ++ attr ++ ".html"]) ∧
    (∀ t t2 : String, t ++ ".html" = t2 ++ ".html" → t = t2) ∧
    (∀ c c2 m m2 a a2 : String,
        '.' ∉ c.data → '.' ∉ c2.data → '.' ∉ m.data → '.' ∉ m2.data →
        '.' ∉ a.data → '.' ∉ a2.data →
        c ++ "." ++ m ++ "." ++ a ++ ".html" =
          c2 ++ "." ++ m2 ++ "." ++ a2 ++ ".html" →
        c = c2 ∧ m = m2 ∧ a = a2) := by
  refine ⟨?_, ?_, ?_, ?_, ?_⟩
  · intro device topic nav r pg rq h
    unfold buildGenericHelp at h
    cases hreq : request device ("help(" ++ topic ++ ")") with
    | none => simp [hreq] at h
    | some txt =>
      simp only [hreq, Option.some.injEq, Prod.mk.injEq] at h
      rw [← h.2.1]
      rfl
  · intro device oc nav r pg rq h
    unfold buildObjectClassHelp at h
    cases hreq : request device ("help(" ++ oc ++ ")") with
    | none => simp [hreq] at h
    | some txt0 =>
      simp only [hreq] at h
      cases hbc : buildClassCommands device oc (oc ++ ".html") nav COMMANDS
          (managerSub txt0) with
      | none => simp [hbc] at h
      | some out =>
        obtain ⟨txt, pg0, rq0⟩ := out
        simp only [hbc, Option.some.injEq, Prod.mk.injEq] at h
        refine ⟨⟨oc ++ ".html", oc, txt, nav ++ [(oc, oc ++ ".html")]⟩, ?_, rfl⟩
        rw [← h.2.1]
        exact List.getLast?_concat _
  · intro device oc cmd at0 nav r pg rq h
    unfold buildObjectCommandHelp at h
    cases hreq : request device ("help(" ++ oc ++ "," ++ cmd ++ "," ++ at0 ++ ")") with
    | none => simp [hreq] at h
    | some txt =>
      simp only [hreq] at h
      cases hlast : nav.getLast? with
      | none => simp [hlast] at h
      | some last =>
        simp only [hlast, Option.some.injEq, Prod.mk.injEq] at h
        rw [← h.2.1]
        rfl
  · exact fun t t2 h => string_append_right_cancel t t2 ".html" h
  · exact fun c c2 m m2 a a2 hc hc2 hm hm2 ha ha2 h =>
      dotted_filename_inj c c2 m m2 a a2 hc hc2 hm hm2 ha ha2 h

/-- Witness for C9 at concrete pages and identifiers. -/
theorem C9_filename_injective_witness :
    ([(⟨"index.html", "Index", "Index help\n",
        [("index", "index.html"), ("index", "index.html")]⟩ : Page)].map Page.filename =
      ["index" ++ ".html"]) ∧
    ([(⟨"foo.get.attr.html", "foo :: get :: attr", "attr info\n",
        [("index", "index.html"), ("foo", "foo.html"), ("get", "foo.html#get"),
         ("attr", "foo.get.attr.html")]⟩ : Page)].map Page.filename =
      ["foo" ++ "." ++ "get" ++ "." ++ "attr" ++ ".html"]) ∧
    (("ecos" : String) = "ecos") ∧
    (("foo" : String) = "foo" ∧ ("get" : String) = "get" ∧ ("attr" : String) = "attr") := by
  refine ⟨?_, ?_, ?_, ?_⟩
  · exact C9_filename_injective.1 deviceIdx "index" [("index", "index.html")]
      "<a href=\"index.html\">help(index)</a>" _ ["help(index)"] (by decide)
  · exact C9_filename_injective.2.2.1 device1 "foo" "get" "attr"
      [("index", "index.html"), ("foo", "foo.html")]
      "<a href=\"foo.get.attr.html\">attr</a>" _ ["help(foo,get,attr)"] (by decide)
  · exact C9_filename_injective.2.2.2.1 "ecos" "ecos" rfl
  · exact C9_filename_injective.2.2.2.2 "foo" "foo" "get" "get" "attr" "attr"
      (by decide) (by decide) (by decide) (by decide) (by decide) (by decide) rfl

/-! ## Claim C2 — attribute pages and their breadcrumbs -/

/-- C2 as stated is false: the breadcrumb written on an attribute page has
the root `index` entry before the class entry, so it is not "exactly
class → command-anchor → attribute".  With `device1` the attribute page
for (foo, get, attr) carries a four-entry breadcrumb. -/
theorem C2_attribute_breadcrumb_counterexample :
    (build device1).map (fun pr => pr.1.map Page.nav) =
      some [[("index", "index.html"), ("foo", "foo.html"), ("get", "foo.html#get"),
             ("attr", "foo.get.attr.html")],
            [("index", "index.html"), ("foo", "foo.html")],
            []] ∧
    ([("index", "index.html"), ("foo", "foo.html"), ("get", "foo.html#get"),
      ("attr", "foo.get.attr.html")] : List (String × String)) ≠
      [("foo", "foo.html"), ("get", "foo.html#get"), ("attr", "foo.get.attr.html")] :=
  ⟨by decide, by decide⟩

/-- C2 (amended): for every attribute discovered within a supported
command's response, a file `<class>.<command>.<attribute>.html` is
written, and the breadcrumb trail written on that page is the root index
entry, then the class entry linking to the class page, then a synthetic
command entry linking to the command anchor within the class page, then
the attribute name as the final entry linking to the new page. -/
theorem C2_attribute_breadcrumb_corrected :
    ∀ (device : String → String) (object_class command attr : String)
      (r : String) (pg : List Page) (rq : List String),
      buildObjectCommandHelp device object_class command attr
          [("index", "index.html"), (object_class, object_class ++ ".html")] =
        some (r, pg, rq) →
      pg.map Page.filename =
        [object_class ++ "." ++ command ++ "." ++ attr ++ ".html"] ∧
      pg.map Page.nav =
        [[("index", "index.html"), (object_class, object_class ++ ".html"),
          (command, (object_class ++ ".html") ++ "#" ++ command),
          (attr, object_class ++ "." ++ command ++ "." ++ attr ++ ".html")]] := by
  intro device oc cmd at0 r pg rq h
  unfold buildObjectCommandHelp at h
  cases hreq : request device ("help(" ++ oc ++ "," ++ cmd ++ "," ++ at0 ++ ")") with
  | none => simp [hreq] at h
  | some txt =>
    simp only [hreq] at h
    rw [show ([("index", "index.html"), (oc, oc ++ ".html")] :
        List (String × String)).getLast? = some (oc, oc ++ ".html") from rfl] at h
    simp only [Option.some.injEq, Prod.mk.injEq] at h
    refine ⟨by rw [← h.2.1]; rfl, by rw [← h.2.1]; rfl⟩

/-- Witness for C2 (amended) at `device1`. -/
theorem C2_attribute_breadcrumb_corrected_witness :
    ([(⟨"foo.get.attr.html", "foo :: get :: attr", "attr info\n",
        [("index", "index.html"), ("foo", "foo.html"), ("get", "foo.html#get"),
         ("attr", "foo.get.attr.html")]⟩ : Page)].map Page.filename =
      ["foo" ++ "." ++ "get" ++ "." ++ "attr" ++ ".html"]) ∧
    ([(⟨"foo.get.attr.html", "foo :: get :: attr", "attr info\n",
        [("index", "index.html"), ("foo", "foo.html"), ("get", "foo.html#get"),
         ("attr", "foo.get.attr.html")]⟩ : Page)].map Page.nav =
      [[("index", "index.html"), ("foo", "foo" ++ ".html"),
        ("get", ("foo" ++ ".html") ++ "#" ++ "get"),
        ("attr", "foo" ++ "." ++ "get" ++ "." ++ "attr" ++ ".html")]]) :=
  C2_attribute_breadcrumb_corrected device1 "foo" "get" "attr"
    "<a href=\"foo.get.attr.html\">attr</a>" _ ["help(foo,get,attr)"] (by decide)

/-! ## Claim C8 — navigation rendering -/

theorem stringFoldlAppend (xs : List String) :
    ∀ a : String, List.foldl (· ++ ·) a xs = a ++ List.foldl (· ++ ·) "" xs := by
  induction xs with
  | nil => intro a; rw [List.foldl_nil, List.foldl_nil, String.append_empty]
  | cons x xs ih =>
    intro a
    rw [List.foldl_cons, List.foldl_cons, ih (a ++ x), ih ("" ++ x),
      String.empty_append, String.append_assoc]

theorem stringJoin_cons (x : String) (xs : List String) :
    String.join (x :: xs) = x ++ String.join xs := by
  unfold String.join
  rw [List.foldl_cons, String.empty_append, stringFoldlAppend]

/-- With no earlier entry equal to the last, the `for item in nav` loop
renders exactly the spec's joined navigation line. -/
theorem navLoop_eq_spec (z : String × String) :
    ∀ l : List (String × String), (∀ x ∈ l, x ≠ z) →
      String.join ((l ++ [z]).map (navItemHtml z)) =
        navSpecJoin
          (l.map (fun item => "<a href=\"" ++ item.2 ++ "\">" ++ item.1 ++ "</a>")
            ++ [z.1]) := by
  intro l
  induction l with
  | nil =>
    intro _
    rw [List.nil_append, List.map_cons, List.map_nil, stringJoin_cons]
    show navItemHtml z z ++ String.join [] = navSpecJoin ([] ++ [z.1])
    rw [show String.join [] = "" from rfl, String.append_empty, List.nil_append]
    unfold navItemHtml
    rw [if_neg (fun hne => hne rfl)]
    rfl
  | cons x l ih =>
    intro h
    have hx : x ≠ z := h x (List.mem_cons_self x l)
    rw [List.cons_append, List.map_cons, stringJoin_cons,
      ih (fun y hy => h y (List.mem_cons_of_mem x hy)), List.map_cons,
      List.cons_append]
    have hitem : navItemHtml z x =
        ("<a href=\"" ++ x.2 ++ "\">" ++ x.1 ++ "</a>") ++ " &raquo; " := by
      unfold navItemHtml
      rw [if_pos hx]
      apply String.ext
      simp [String.data_append]
    rw [hitem]
    cases hm : l.map (fun item => "<a href=\"" ++ item.2 ++ "\">" ++ item.1 ++ "</a>")
      ++ [z.1] with
    | nil => exact absurd hm (by simp)
    | cons m ms =>
      rfl

/-- The last page `build` writes is the index page, with an empty
breadcrumb. -/
theorem build_index_page (device : String → String) (pages : List Page)
    (reqs : List String) (h : build device = some (pages, reqs)) :
    ∃ p, pages.getLast? = some p ∧ p.filename = "index.html" ∧
      p.title = "Index" ∧ p.nav = [] := by
  unfold build at h
  cases h0 : request device "help()" with
  | none => simp [h0] at h
  | some txt =>
    simp only [h0] at h
    cases h1 : genericSub
        (fun topic => buildGenericHelp device topic [("index", "index.html")]) txt with
    | none => simp [h1] at h
    | some out1 =>
      obtain ⟨txt1, pg1, rq1⟩ := out1
      simp only [h1] at h
      cases h2 : indexOfSub "Implemented objectclasses:".data txt1.data with
      | none => simp [h2] at h
      | some offset =>
        simp only [h2] at h
        cases h3 : classSub
            (fun cls => buildObjectClassHelp device cls [("index", "index.html")])
            ⟨txt1.data.drop offset⟩ with
        | none => simp [h3] at h
        | some out2 =>
          obtain ⟨suffix, pg2, rq2⟩ := out2
          simp only [h3, Option.some.injEq, Prod.mk.injEq] at h
          refine ⟨⟨"index.html", "Index",
            (⟨txt1.data.take offset⟩ : String) ++ suffix, []⟩, ?_, rfl, rfl, rfl⟩
          rw [← h.1]
          exact List.getLast?_concat _

/-- C8 as stated is false: the loop compares each entry to `nav[-1]` by
value, so an earlier entry equal to the last is rendered as plain text,
not as a hyperlink.  This is reachable: `deviceIdx` exposes a generic
topic named `index`, whose page gets the breadcrumb
`[(index, index.html), (index, index.html)]` and a navigation line with no
hyperlink at all. -/
theorem C8_nav_rendering_counterexample :
    (build deviceIdx).map (fun pr => pr.1.map Page.nav) =
      some [[("index", "index.html"), ("index", "index.html")], []] ∧
    renderNav [("index", "index.html"), ("index", "index.html")] =
      "indexindex" ++ "\n" ++ rule80 ++ "\n\n" ∧
    renderNav [("index", "index.html"), ("index", "index.html")] ≠
      renderNavSpec [("index", "index.html"), ("index", "index.html")] :=
  ⟨by decide, by decide, by decide⟩

/-- C8 (amended): a navigation line is rendered exactly when the
breadcrumb has more than one entry; entries are compared by value to the
last entry, so every entry not equal to the last is rendered as a
hyperlink followed by the `&raquo;` separator and every entry equal to the
last (in particular the last itself) is rendered as plain text — when no
earlier entry equals the last this is precisely "all entries but the last
are links, the last is plain text"; and the index page is written with an
empty breadcrumb, so the root page gets no navigation bar. -/
theorem C8_nav_rendering_corrected :
    (∀ nav : List (String × String), renderNav nav = "" ↔ nav.length ≤ 1) ∧
    (∀ nav : List (String × String),
        (∀ x ∈ nav.dropLast, x ≠ nav.getLastD ("", "")) →
        renderNav nav = renderNavSpec nav) ∧
    (∀ (device : String → String) (pages : List Page) (reqs : List String),
        build device = some (pages, reqs) →
        ∃ p, pages.getLast? = some p ∧ p.filename = "index.html" ∧
          p.title = "Index" ∧ p.nav = []) := by
  refine ⟨?_, ?_, ?_⟩
  · intro nav
    unfold renderNav
    by_cases hlen : 1 < nav.length
    · rw [if_pos hlen]
      apply iff_of_false
      · intro hS
        have hL := congrArg String.length hS
        rw [String.length_append, String.length_append, String.length_append] at hL
        rw [show ("\n\n" : String).length = 2 from rfl,
          show ("\n" : String).length = 1 from rfl,
          show rule80.length = 80 from by decide,
          show ("" : String).length = 0 from rfl] at hL
        omega
      · omega
    · rw [if_neg hlen]
      exact iff_of_true rfl (by omega)
  · intro nav h
    unfold renderNav renderNavSpec
    by_cases hlen : 1 < nav.length
    · rw [if_pos hlen, if_pos hlen]
      rcases List.eq_nil_or_concat nav with rfl | ⟨l, z, rfl⟩
      · simp at hlen
      · rw [List.concat_eq_append] at h ⊢
        rw [List.getLastD_concat] at h ⊢
        rw [List.dropLast_concat] at h ⊢
        rw [navLoop_eq_spec z l h]
    · rw [if_neg hlen, if_neg hlen]
  · exact build_index_page

/-- Witness for C8 (amended) at a concrete breadcrumb and device. -/
theorem C8_nav_rendering_corrected_witness :
    (renderNav [("index", "index.html"), ("foo", "foo.html")] =
      renderNavSpec [("index", "index.html"), ("foo", "foo.html")]) ∧
    (∃ p, ([(⟨"foo.get.attr.html", "foo :: get :: attr", "attr info\n",
        [("index", "index.html"), ("foo", "foo.html"), ("get", "foo.html#get"),
         ("attr", "foo.get.attr.html")]⟩ : Page),
      ⟨"foo.html", "foo",
        "Manager: 1 (<a href=\"foo.html\">foo</a>)\n\n<a id=\"get\"></a>Options for get command:\n    <a href=\"foo.get.attr.html\">attr</a>\n",
        [("index", "index.html"), ("foo", "foo.html")]⟩,
      ⟨"index.html", "Index",
        "Implemented objectclasses:\n <a href=\"foo.html\">foo</a>\n", []⟩] :
        List Page).getLast? = some p ∧
      p.filename = "index.html" ∧ p.title = "Index" ∧ p.nav = []) := by
  constructor
  · exact C8_nav_rendering_corrected.2.1 [("index", "index.html"), ("foo", "foo.html")]
      (by decide)
  · exact C8_nav_rendering_corrected.2.2 device1
      [⟨"foo.get.attr.html", "foo :: get :: attr", "attr info\n",
        [("index", "index.html"), ("foo", "foo.html"), ("get", "foo.html#get"),
         ("attr", "foo.get.attr.html")]⟩,
       ⟨"foo.html", "foo",
        "Manager: 1 (<a href=\"foo.html\">foo</a>)\n\n<a id=\"get\"></a>Options for get command:\n    <a href=\"foo.get.attr.html\">attr</a>\n",
        [("index", "index.html"), ("foo", "foo.html")]⟩,
       ⟨"index.html", "Index",
        "Implemented objectclasses:\n <a href=\"foo.html\">foo</a>\n", []⟩]
      ["help()", "help(foo)", "help(foo,get)", "help(foo,get,attr)", "help(foo,set)",
       "help(foo,create)", "help(foo,delete)", "help(foo,request)", "help(foo,release)",
       "help(foo,link)", "help(foo,unlink)", "help(foo,queryObjects)"]
      (by decide)

/-! ## Claim C3 — command order and skipping of absent commands -/

/-- The requests issued by the command loop: one `help(class,command)`
request per command of the list, in list order, each followed by the
attribute requests its substitution triggered. -/
theorem buildClassCommands_reqs (device : String → String)
    (object_class filename : String) (nav : List (String × String)) :
    ∀ (cmds : List String) (txt t : String) (pg : List Page) (rq : List String),
      buildClassCommands device object_class filename nav cmds txt =
        some (t, pg, rq) →
      ∃ attrReqs : List (List String), attrReqs.length = cmds.length ∧
        rq = List.flatten (List.zipWith
          (fun c ars => ("help(" ++ object_class ++ "," ++ c ++ ")") :: ars)
          cmds attrReqs) := by
  intro cmds
  induction cmds with
  | nil =>
    intro txt t pg rq h
    simp only [buildClassCommands, Option.some.injEq, Prod.mk.injEq] at h
    exact ⟨[], rfl, by rw [← h.2.2]; rfl⟩
  | cons c rest ih =>
    intro txt t pg rq h
    simp only [buildClassCommands] at h
    split at h
    · -- request absent: skipped, request still logged
      rename_i hr
      split at h
      · exact absurd h (by simp)
      · rename_i t2 pg2 rq2 hb
        simp only [Option.some.injEq, Prod.mk.injEq] at h
        obtain ⟨ars, hlen, hrq⟩ := ih txt t2 pg2 rq2 hb
        refine ⟨[] :: ars, by simp [hlen], ?_⟩
        rw [← h.2.2, hrq]
        rfl
    · -- request present
      rename_i r2 hr
      split at h
      · exact absurd h (by simp)
      · rename_i i0 hi
        split at h
        · exact absurd h (by simp)
        · rename_i resp2 pgA rqA ha
          split at h
          · exact absurd h (by simp)
          · rename_i t2 pg2 rq2 hb
            simp only [Option.some.injEq, Prod.mk.injEq] at h
            obtain ⟨ars, hlen, hrq⟩ := ih _ t2 pg2 rq2 hb
            refine ⟨rqA :: ars, by simp [hlen], ?_⟩
            rw [← h.2.2, hrq]
            rfl

/-- Segment structure of the command loop: the page body grows by one
segment per command and the written pages by one block per command; a
command whose response is absent contributes an empty segment (no anchor
bookmark) and no pages, while a present command's segment starts with the
line separator and its anchor bookmark. -/
theorem buildClassCommands_segments (device : String → String)
    (object_class filename : String) (nav : List (String × String)) :
    ∀ (cmds : List String) (txt t : String) (pg : List Page) (rq : List String),
      buildClassCommands device object_class filename nav cmds txt =
        some (t, pg, rq) →
      ∃ (segs : List String) (pgs : List (List Page)),
        segs.length = cmds.length ∧ pgs.length = cmds.length ∧
        t = txt ++ String.join segs ∧ pg = List.flatten pgs ∧
        (∀ (i : Nat) (cmd : String), cmds[i]? = some cmd →
          request device ("help(" ++ object_class ++ "," ++ cmd ++ ")") = none →
          segs[i]? = some "" ∧ pgs[i]? = some []) ∧
        (∀ (i : Nat) (cmd : String), cmds[i]? = some cmd →
          request device ("help(" ++ object_class ++ "," ++ cmd ++ ")") ≠ none →
          ∃ rest2 : String, segs[i]? =
            some ("\n" ++ "<a id=\"" ++ cmd ++ "\"></a>" ++ rest2)) := by
  intro cmds
  induction cmds with
  | nil =>
    intro txt t pg rq h
    simp only [buildClassCommands, Option.some.injEq, Prod.mk.injEq] at h
    refine ⟨[], [], rfl, rfl, ?_, h.2.1.symm, ?_, ?_⟩
    · rw [← h.1, show String.join [] = "" from rfl, String.append_empty]
    · intro i cmd hi
      simp at hi
    · intro i cmd hi
      simp at hi
  | cons c rest ih =>
    intro txt t pg rq h
    simp only [buildClassCommands] at h
    split at h
    · -- request absent: empty segment, no pages
      rename_i hr
      split at h
      · exact absurd h (by simp)
      · rename_i t2 pg2 rq2 hb
        simp only [Option.some.injEq, Prod.mk.injEq] at h
        obtain ⟨segs, pgs, hl1, hl2, ht, hp, habs, hpres⟩ := ih txt t2 pg2 rq2 hb
        refine ⟨"" :: segs, [] :: pgs, by simp [hl1], by simp [hl2], ?_, ?_, ?_, ?_⟩
        · rw [← h.1, ht, stringJoin_cons, String.empty_append]
        · rw [← h.2.1, hp]
          rfl
        · intro i cmd hic hreq
          cases i with
          | zero => exact ⟨by simp, by simp⟩
          | succ i =>
            simp only [List.getElem?_cons_succ] at hic ⊢
            exact habs i cmd hic hreq
        · intro i cmd hic hreq
          cases i with
          | zero =>
            simp only [List.getElem?_cons_zero, Option.some.injEq] at hic
            exact absurd (hic ▸ hr) hreq
          | succ i =>
            simp only [List.getElem?_cons_succ] at hic ⊢
            exact hpres i cmd hic hreq
    · -- request present: anchor segment and attribute pages
      rename_i r2 hr
      split at h
      · exact absurd h (by simp)
      · rename_i i0 hi
        split at h
        · exact absurd h (by simp)
        · rename_i resp2 pgA rqA ha
          split at h
          · exact absurd h (by simp)
          · rename_i t2 pg2 rq2 hb
            simp only [Option.some.injEq, Prod.mk.injEq] at h
            obtain ⟨segs, pgs, hl1, hl2, ht, hp, habs, hpres⟩ := ih _ t2 pg2 rq2 hb
            refine ⟨("\n" ++ "<a id=\"" ++ c ++ "\"></a>" ++ resp2) :: segs,
              pgA :: pgs, by simp [hl1], by simp [hl2], ?_, ?_, ?_, ?_⟩
            · rw [← h.1, ht, stringJoin_cons]
              simp only [String.append_assoc]
            · rw [← h.2.1, hp]
              rfl
            · intro i cmd hic hreq
              cases i with
              | zero =>
                simp only [List.getElem?_cons_zero, Option.some.injEq] at hic
                rw [← hic] at hreq
                rw [hreq] at hr
                exact Option.noConfusion hr
              | succ i =>
                simp only [List.getElem?_cons_succ] at hic ⊢
                exact habs i cmd hic hreq
            · intro i cmd hic hreq
              cases i with
              | zero =>
                simp only [List.getElem?_cons_zero, Option.some.injEq] at hic
                exact ⟨resp2, by rw [← hic]; simp⟩
              | succ i =>
                simp only [List.getElem?_cons_succ] at hic ⊢
                exact hpres i cmd hic hreq

/-- C3: per-command help requests are issued in exactly the fixed
`COMMANDS` order get, set, create, delete, request, release, link, unlink,
queryObjects; and for every command whose response is absent, the class
page receives no anchor bookmark for that command (its body segment is
empty) and no attribute pages for that (class, command) pair are created
(its page block is empty). -/
theorem C3_command_order_and_skip :
    COMMANDS = ["get", "set", "create", "delete", "request", "release", "link",
      "unlink", "queryObjects"] ∧
    (∀ (device : String → String) (object_class : String)
        (nav : List (String × String)) (r : String) (pg : List Page)
        (rq : List String),
        buildObjectClassHelp device object_class nav = some (r, pg, rq) →
        ∃ attrReqs : List (List String), attrReqs.length = COMMANDS.length ∧
          rq = ("help(" ++ object_class ++ ")") ::
            List.flatten (List.zipWith
              (fun c ars => ("help(" ++ object_class ++ "," ++ c ++ ")") :: ars)
              COMMANDS attrReqs)) ∧
    (∀ (device : String → String) (object_class : String)
        (nav : List (String × String)) (r : String) (pg : List Page)
        (rq : List String),
        buildObjectClassHelp device object_class nav = some (r, pg, rq) →
        ∃ (t0 : String) (segs : List String) (pgs : List (List Page)),
          request device ("help(" ++ object_class ++ ")") = some t0 ∧
          segs.length = COMMANDS.length ∧ pgs.length = COMMANDS.length ∧
          pg = List.flatten pgs ++
            [⟨object_class ++ ".html", object_class,
              managerSub t0 ++ String.join segs,
              nav ++ [(object_class, object_class ++ ".html")]⟩] ∧
          (∀ (i : Nat) (cmd : String), COMMANDS[i]? = some cmd →
            request device ("help(" ++ object_class ++ "," ++ cmd ++ ")") = none →
            segs[i]? = some "" ∧ pgs[i]? = some []) ∧
          (∀ (i : Nat) (cmd : String), COMMANDS[i]? = some cmd →
            request device ("help(" ++ object_class ++ "," ++ cmd ++ ")") ≠ none →
            ∃ rest2 : String, segs[i]? =
              some ("\n" ++ "<a id=\"" ++ cmd ++ "\"></a>" ++ rest2))) := by
  refine ⟨rfl, ?_, ?_⟩
  · intro device oc nav r pg rq h
    unfold buildObjectClassHelp at h
    cases hreq : request device ("help(" ++ oc ++ ")") with
    | none => simp [hreq] at h
    | some t0 =>
      simp only [hreq] at h
      cases hbc : buildClassCommands device oc (oc ++ ".html") nav COMMANDS
          (managerSub t0) with
      | none => simp [hbc] at h
      | some out =>
        obtain ⟨txt, pg0, rq0⟩ := out
        simp only [hbc, Option.some.injEq, Prod.mk.injEq] at h
        obtain ⟨ars, hlen, hrq⟩ := buildClassCommands_reqs device oc (oc ++ ".html")
          nav COMMANDS (managerSub t0) txt pg0 rq0 hbc
        exact ⟨ars, hlen, by rw [← h.2.2, hrq]⟩
  · intro device oc nav r pg rq h
    unfold buildObjectClassHelp at h
    cases hreq : request device ("help(" ++ oc ++ ")") with
    | none => simp [hreq] at h
    | some t0 =>
      simp only [hreq] at h
      cases hbc : buildClassCommands device oc (oc ++ ".html") nav COMMANDS
          (managerSub t0) with
      | none => simp [hbc] at h
      | some out =>
        obtain ⟨txt, pg0, rq0⟩ := out
        simp only [hbc, Option.some.injEq, Prod.mk.injEq] at h
        obtain ⟨segs, pgs, hl1, hl2, ht, hp, habs, hpres⟩ :=
          buildClassCommands_segments device oc (oc ++ ".html") nav COMMANDS
            (managerSub t0) txt pg0 rq0 hbc
        refine ⟨t0, segs, pgs, rfl, hl1, hl2, ?_, habs, hpres⟩
        rw [← h.2.1, hp, ht]

/-- Witness for C3 at `device1`: only `get` is supported on class `foo`. -/
theorem C3_command_order_and_skip_witness :
    (∃ attrReqs : List (List String), attrReqs.length = COMMANDS.length ∧
      (["help(foo)", "help(foo,get)", "help(foo,get,attr)", "help(foo,set)",
        "help(foo,create)", "help(foo,delete)", "help(foo,request)",
        "help(foo,release)", "help(foo,link)", "help(foo,unlink)",
        "help(foo,queryObjects)"] : List String) =
        ("help(" ++ "foo" ++ ")") :: List.flatten (List.zipWith
          (fun c ars => ("help(" ++ "foo" ++ "," ++ c ++ ")") :: ars)
          COMMANDS attrReqs)) ∧
    (∃ (t0 : String) (segs : List String) (pgs : List (List Page)),
      request device1 ("help(" ++ "foo" ++ ")") = some t0 ∧
      segs.length = COMMANDS.length ∧ pgs.length = COMMANDS.length ∧
      ([⟨"foo.get.attr.html", "foo :: get :: attr", "attr info\n",
          [("index", "index.html"), ("foo", "foo.html"), ("get", "foo.html#get"),
           ("attr", "foo.get.attr.html")]⟩,
        ⟨"foo.html", "foo",
          "Manager: 1 (<a href=\"foo.html\">foo</a>)\n\n<a id=\"get\"></a>Options for get command:\n    <a href=\"foo.get.attr.html\">attr</a>\n",
          [("index", "index.html"), ("foo", "foo.html")]⟩] : List Page) =
        List.flatten pgs ++
          [⟨"foo" ++ ".html", "foo", managerSub t0 ++ String.join segs,
            [("index", "index.html")] ++ [("foo", "foo" ++ ".html")]⟩] ∧
      (∀ (i : Nat) (cmd : String), COMMANDS[i]? = some cmd →
        request device1 ("help(" ++ "foo" ++ "," ++ cmd ++ ")") = none →
        segs[i]? = some "" ∧ pgs[i]? = some []) ∧
      (∀ (i : Nat) (cmd : String), COMMANDS[i]? = some cmd →
        request device1 ("help(" ++ "foo" ++ "," ++ cmd ++ ")") ≠ none →
        ∃ rest2 : String, segs[i]? =
          some ("\n" ++ "<a id=\"" ++ cmd ++ "\"></a>" ++ rest2))) := by
  constructor
  · exact C3_command_order_and_skip.2.1 device1 "foo" [("index", "index.html")]
      "<a href=\"foo.html\">foo</a>"
      [⟨"foo.get.attr.html", "foo :: get :: attr", "attr info\n",
        [("index", "index.html"), ("foo", "foo.html"), ("get", "foo.html#get"),
         ("attr", "foo.get.attr.html")]⟩,
       ⟨"foo.html", "foo",
        "Manager: 1 (<a href=\"foo.html\">foo</a>)\n\n<a id=\"get\"></a>Options for get command:\n    <a href=\"foo.get.attr.html\">attr</a>\n",
        [("index", "index.html"), ("foo", "foo.html")]⟩]
      ["help(foo)", "help(foo,get)", "help(foo,get,attr)", "help(foo,set)",
       "help(foo,create)", "help(foo,delete)", "help(foo,request)",
       "help(foo,release)", "help(foo,link)", "help(foo,unlink)",
       "help(foo,queryObjects)"] (by decide)
  · exact C3_command_order_and_skip.2.2 device1 "foo" [("index", "index.html")]
      "<a href=\"foo.html\">foo</a>"
      [⟨"foo.get.attr.html", "foo :: get :: attr", "attr info\n",
        [("index", "index.html"), ("foo", "foo.html"), ("get", "foo.html#get"),
         ("attr", "foo.get.attr.html")]⟩,
       ⟨"foo.html", "foo",
        "Manager: 1 (<a href=\"foo.html\">foo</a>)\n\n<a id=\"get\"></a>Options for get command:\n    <a href=\"foo.get.attr.html\">attr</a>\n",
        [("index", "index.html"), ("foo", "foo.html")]⟩]
      ["help(foo)", "help(foo,get)", "help(foo,get,attr)", "help(foo,set)",
       "help(foo,create)", "help(foo,delete)", "help(foo,request)",
       "help(foo,release)", "help(foo,link)", "help(foo,unlink)",
       "help(foo,queryObjects)"] (by decide)

/-! ## Claim C7 — the object-class pass of the index build

The claim is per-line: in the region at and after the
`Implemented objectclasses:` marker, every line that begins with a run of
leading whitespace followed by a lowercase-and-hyphen identifier token has
exactly that token replaced by the class link, whitespace preserved, and
the portion before the marker is emitted unchanged.  The scan itself is
global (`\s+` may span newlines), so the proof relates the global scan to
the per-line description. -/

theorem takeWhile_append_all (p : Char → Bool) (a b : List Char)
    (h : ∀ c ∈ a, p c = true) :
    (a ++ b).takeWhile p = a ++ b.takeWhile p := by
  induction a with
  | nil => rfl
  | cons c a ih =>
    simp only [List.cons_append, List.takeWhile_cons,
      h c (List.mem_cons_self c a)]
    rw [ih (fun x hx => h x (List.mem_cons_of_mem c hx))]
    simp

theorem dropWhile_append_all (p : Char → Bool) (a b : List Char)
    (h : ∀ c ∈ a, p c = true) :
    (a ++ b).dropWhile p = b.dropWhile p := by
  induction a with
  | nil => rfl
  | cons c a ih =>
    simp only [List.cons_append, List.dropWhile_cons,
      h c (List.mem_cons_self c a), if_true]
    exact ih (fun x hx => h x (List.mem_cons_of_mem c hx))

theorem takeWhile_nil_of_head (p : Char → Bool) (b : List Char)
    (h : ∀ c, b.head? = some c → p c = false) :
    b.takeWhile p = [] := by
  cases b with
  | nil => rfl
  | cons c b => simp [List.takeWhile_cons, h c rfl]

theorem dropWhile_self_of_head (p : Char → Bool) (b : List Char)
    (h : ∀ c, b.head? = some c → p c = false) :
    b.dropWhile p = b := by
  cases b with
  | nil => rfl
  | cons c b => simp [List.dropWhile_cons, h c rfl]

theorem dropWhile_head_false (p : Char → Bool) (l : List Char) :
    ∀ c, (l.dropWhile p).head? = some c → p c = false := by
  induction l with
  | nil => intro c h; simp at h
  | cons x l ih =>
    intro c h
    by_cases hx : p x
    · rw [List.dropWhile_cons, if_pos hx] at h
      exact ih c h
    · rw [List.dropWhile_cons, if_neg hx] at h
      simp only [List.head?_cons, Option.some.injEq] at h
      rw [← h]
      exact Bool.eq_false_iff.mpr hx

theorem splitLines_of_noNl (u : List Char) (h : ∀ c ∈ u, ¬ c = '\n') :
    splitLines u = [u] := by
  induction u with
  | nil => rfl
  | cons c u ih =>
    rw [splitLines_cons_ne c u (h c (List.mem_cons_self c u)),
      ih (fun x hx => h x (List.mem_cons_of_mem c hx))]
    rfl

theorem mem_of_mem_splitLines (cs : List Char) :
    ∀ l ∈ splitLines cs, ∀ x ∈ l, x ∈ cs := by
  induction cs with
  | nil =>
    intro l hl x hx
    simp [splitLines] at hl
    subst hl
    simp at hx
  | cons c cs ih =>
    intro l hl x hx
    by_cases hc : c = '\n'
    · subst hc
      rw [splitLines_cons_nl] at hl
      rcases List.mem_cons.mp hl with rfl | hl
      · simp at hx
      · exact List.mem_cons_of_mem _ (ih l hl x hx)
    · rw [splitLines_cons_ne c cs hc] at hl
      cases hs : splitLines cs with
      | nil => exact absurd hs (splitLines_ne_nil cs)
      | cons l0 ls =>
        rw [hs] at hl
        simp only [List.modifyHead_cons] at hl
        rcases List.mem_cons.mp hl with rfl | hl
        · rcases List.mem_cons.mp hx with rfl | hx
          · exact List.mem_cons_self x cs
          · exact List.mem_cons_of_mem _
              (ih l0 (hs ▸ List.mem_cons_self l0 ls) x hx)
        · exact List.mem_cons_of_mem _
            (ih l (hs ▸ List.mem_cons_of_mem l0 hl) x hx)

/-- The text is its own first line followed by nothing or by a newline and
the rest. -/
theorem headline_decomp (cs : List Char) :
    ∃ tl, cs = (splitLines cs).headD [] ++ tl ∧
      (tl = [] ∨ ∃ tl2, tl = '\n' :: tl2) := by
  induction cs with
  | nil => exact ⟨[], rfl, Or.inl rfl⟩
  | cons c cs ih =>
    by_cases hc : c = '\n'
    · subst hc
      rw [splitLines_cons_nl]
      exact ⟨'\n' :: cs, rfl, Or.inr ⟨cs, rfl⟩⟩
    · rw [splitLines_cons_ne c cs hc]
      obtain ⟨tl, htl, hor⟩ := ih
      cases hs : splitLines cs with
      | nil => exact absurd hs (splitLines_ne_nil cs)
      | cons l0 ls =>
        rw [hs] at htl
        refine ⟨tl, ?_, hor⟩
        simp only [List.modifyHead_cons, List.headD_cons, List.cons_append]
        rw [show (l0 :: ls).headD [] = l0 from rfl] at htl
        rw [← htl]

theorem isLowerHyphen_not_space (c : Char) (h : isLowerHyphen c = true) :
    isPySpace c = false := by
  by_contra hsp
  rw [Bool.not_eq_false] at hsp
  unfold isPySpace at hsp
  have hd : c = ' ' ∨ c = '\t' ∨ c = '\n' ∨ c = '\r' ∨ c = '\x0b' ∨ c = '\x0c' := by
    simpa [Bool.or_eq_true, decide_eq_true_eq, or_assoc] using hsp
  rcases hd with h1 | h1 | h1 | h1 | h1 | h1 <;> subst h1 <;>
    exact absurd h (by decide)

theorem isLowerHyphen_ne_nl (c : Char) (h : isLowerHyphen c = true) :
    ¬ c = '\n' := by
  intro hc
  subst hc
  exact absurd h (by decide)

/-! ### Gluing line decompositions of concatenated texts -/

theorem glueLines_cons_of_ne (x : List Char) (xs ys : List (List Char))
    (h : xs ≠ []) : glueLines (x :: xs) ys = x :: glueLines xs ys := by
  cases xs with
  | nil => exact absurd rfl h
  | cons a as => rfl

theorem modifyHead_id_append (ys : List (List Char)) :
    List.modifyHead (fun l => [] ++ l) ys = ys := by
  cases ys <;> rfl

theorem splitLines_append (a b : List Char) :
    splitLines (a ++ b) = glueLines (splitLines a) (splitLines b) := by
  induction a with
  | nil =>
    rw [List.nil_append]
    show splitLines b = glueLines [[]] (splitLines b)
    rw [show glueLines [[]] (splitLines b) =
      List.modifyHead (fun l => [] ++ l) (splitLines b) from rfl,
      modifyHead_id_append]
  | cons c a ih =>
    by_cases hc : c = '\n'
    · subst hc
      rw [List.cons_append, splitLines_cons_nl, splitLines_cons_nl, ih,
        glueLines_cons_of_ne [] (splitLines a) (splitLines b)
          (splitLines_ne_nil a)]
    · rw [List.cons_append, splitLines_cons_ne c _ hc, splitLines_cons_ne c _ hc,
        ih]
      cases hs : splitLines a with
      | nil => exact absurd hs (splitLines_ne_nil a)
      | cons l ls =>
        cases ls with
        | nil =>
          show List.modifyHead (fun t => c :: t)
              (List.modifyHead (fun t => l ++ t) (splitLines b)) =
            glueLines [c :: l] (splitLines b)
          cases hb : splitLines b with
          | nil => exact absurd hb (splitLines_ne_nil b)
          | cons m ms => rfl
        | cons l2 ls2 =>
          simp only [List.modifyHead_cons]
          rw [glueLines_cons_of_ne l (l2 :: ls2) (splitLines b) (by simp),
            glueLines_cons_of_ne (c :: l) (l2 :: ls2) (splitLines b) (by simp)]
          rfl

theorem splitLines_append_noNl (u v : List Char) (h : ∀ c ∈ u, ¬ c = '\n') :
    splitLines (u ++ v) = List.modifyHead (fun l => u ++ l) (splitLines v) := by
  rw [splitLines_append, splitLines_of_noNl u h]
  rfl

theorem glueLines_length (xs ys : List (List Char)) (h : xs ≠ []) :
    (glueLines xs ys).length = xs.length - 1 + ys.length := by
  induction xs with
  | nil => exact absurd rfl h
  | cons x xs ih =>
    cases xs with
    | nil =>
      show (List.modifyHead (fun l => x ++ l) ys).length = 0 + ys.length
      rw [List.length_modifyHead, Nat.zero_add]
    | cons a as =>
      rw [glueLines_cons_of_ne x (a :: as) ys (by simp), List.length_cons,
        ih (by simp), List.length_cons]
      simp only [List.length_cons]
      omega

theorem glueLines_getD_lt (xs ys : List (List Char)) (i : Nat)
    (hi : i < xs.length - 1) :
    (glueLines xs ys).getD i [] = xs.getD i [] := by
  induction xs generalizing i with
  | nil => simp at hi
  | cons x xs ih =>
    cases xs with
    | nil => simp at hi
    | cons a as =>
      rw [glueLines_cons_of_ne x (a :: as) ys (by simp)]
      cases i with
      | zero => rfl
      | succ i =>
        simp only [List.getD_cons_succ]
        exact ih i (by simp only [List.length_cons] at hi ⊢; omega)

theorem glueLines_getD_last (xs ys : List (List Char)) (hxs : xs ≠ [])
    (hys : ys ≠ []) :
    (glueLines xs ys).getD (xs.length - 1) [] =
      xs.getLastD [] ++ ys.headD [] := by
  induction xs with
  | nil => exact absurd rfl hxs
  | cons x xs ih =>
    cases xs with
    | nil =>
      show (List.modifyHead (fun l => x ++ l) ys).getD 0 [] = x ++ ys.headD []
      cases ys with
      | nil => exact absurd rfl hys
      | cons m ms => rfl
    | cons a as =>
      rw [glueLines_cons_of_ne x (a :: as) ys (by simp)]
      have hlen : (x :: a :: as).length - 1 = ((a :: as).length - 1) + 1 := by
        simp only [List.length_cons]
        omega
      rw [hlen, List.getD_cons_succ, ih (by simp)]
      rfl

theorem glueLines_getD_ge (xs ys : List (List Char)) (hxs : xs ≠ [])
    (j : Nat) (hj : 1 ≤ j) :
    (glueLines xs ys).getD (xs.length - 1 + j) [] = ys.getD j [] := by
  induction xs with
  | nil => exact absurd rfl hxs
  | cons x xs ih =>
    cases xs with
    | nil =>
      show (List.modifyHead (fun l => x ++ l) ys).getD (0 + j) [] = ys.getD j []
      rw [Nat.zero_add]
      cases ys with
      | nil => simp
      | cons m ms =>
        cases j with
        | zero => omega
        | succ j => rfl
    | cons a as =>
      rw [glueLines_cons_of_ne x (a :: as) ys (by simp)]
      have hlen : (x :: a :: as).length - 1 + j = ((a :: as).length - 1 + j) + 1 := by
        simp only [List.length_cons]
        omega
      rw [hlen, List.getD_cons_succ, ih (by simp)]

/-! ### Properties of the `\b` backtracking -/

theorem lbpRev_ne_nil : ∀ (rr : List Char) (next : Option Char) (t : List Char),
    lbpRev rr next = some t → t ≠ [] := by
  intro rr
  induction rr with
  | nil => intro next t h; simp [lbpRev] at h
  | cons c cs ih =>
    intro next t h
    unfold lbpRev at h
    split at h
    · injection h with ht
      rw [← ht]
      simp
    · exact ih (some c) t h

theorem lbpRev_suffix : ∀ (rr : List Char) (next : Option Char) (t : List Char),
    lbpRev rr next = some t → ∃ d, rr = d ++ t := by
  intro rr
  induction rr with
  | nil => intro next t h; simp [lbpRev] at h
  | cons c cs ih =>
    intro next t h
    unfold lbpRev at h
    split at h
    · injection h with ht
      exact ⟨[], by rw [← ht]; rfl⟩
    · obtain ⟨d, hd⟩ := ih (some c) t h
      exact ⟨c :: d, by rw [hd]; rfl⟩

/-- A successful backtracking result is a nonempty prefix of the run. -/
theorem lbp_prefix (r : List Char) (next : Option Char) (tok : List Char)
    (h : lbp r next = some tok) : ∃ d, r = tok ++ d ∧ tok ≠ [] := by
  unfold lbp at h
  cases hrev : lbpRev r.reverse next with
  | none => rw [hrev] at h; cases h
  | some t =>
    rw [hrev, show (some t).map List.reverse = some t.reverse from rfl,
      Option.some.injEq] at h
    obtain ⟨d, hd⟩ := lbpRev_suffix r.reverse next t hrev
    refine ⟨d.reverse, ?_, ?_⟩
    · rw [← List.reverse_reverse r, hd, List.reverse_append, h]
    · intro htok
      rw [← h] at htok
      have ht : t = [] := by simpa using congrArg List.reverse htok
      exact lbpRev_ne_nil r.reverse next t hrev ht

/-- When the word boundary already holds at the end of the full run, no
backtracking happens: the whole run is matched. -/
theorem lbp_full (r : List Char) (next : Option Char) (cl : Char)
    (hlast : r.getLast? = some cl) (hb : ¬ isWordChar cl = nextIsWord next) :
    lbp r next = some r := by
  cases hr : r.reverse with
  | nil =>
    have hn : r = [] := by simpa using congrArg List.reverse hr
    subst hn
    simp at hlast
  | cons c cs =>
    have hc : c = cl := by
      have h1 : r.getLast? = some c := by
        rw [← List.head?_reverse, hr]
        rfl
      rw [h1] at hlast
      injection hlast
    subst hc
    unfold lbp
    rw [hr]
    unfold lbpRev
    rw [if_pos (by simpa using hb)]
    rw [show (some (c :: cs)).map List.reverse = some (c :: cs).reverse from rfl,
      ← hr, List.reverse_reverse]

/-! ### Characterising a successful `^(\s+)([a-z-]+)\b` match -/

theorem all_takeWhile (p : Char → Bool) (l : List Char) :
    (l.takeWhile p).all p = true := by
  rw [List.all_eq_true]
  exact fun x hx => List.mem_takeWhile_imp hx

theorem modifyHead_getD_ge (f : List Char → List Char) (l : List (List Char))
    (i : Nat) (d : List Char) (hi : 1 ≤ i) :
    (List.modifyHead f l).getD i d = l.getD i d := by
  cases l with
  | nil => rfl
  | cons x xs =>
    cases i with
    | zero => omega
    | succ i => rfl

theorem modifyHead_headD (f : List Char → List Char) (l : List (List Char))
    (d : List Char) (hl : l ≠ []) :
    (List.modifyHead f l).headD d = f (l.headD d) := by
  cases l with
  | nil => exact absurd rfl hl
  | cons x xs => rfl

theorem classLineGood_not_space (ℓ ws tok rest : List Char)
    (hsp : ∀ c ∈ ℓ, isPySpace c = true) :
    ¬ ClassLineGood ℓ ws tok rest := by
  rintro ⟨hdec, -, -, htok, htokall, -, -, -⟩
  cases tok with
  | nil => exact htok rfl
  | cons t ts =>
    have htmem : t ∈ ℓ := by
      rw [hdec]
      exact List.mem_append.mpr (Or.inl (List.mem_append.mpr (Or.inr
        (List.mem_cons_self t ts))))
    have hlh : isLowerHyphen t = true :=
      (List.all_eq_true.mp htokall) t (List.mem_cons_self t ts)
    have := isLowerHyphen_not_space t hlh
    rw [hsp t htmem] at this
    cases this

theorem tryClassMatch_some (cs ws tok rest : List Char)
    (h : tryClassMatch cs = some (ws, tok, rest)) :
    cs = ws ++ (tok ++ rest) ∧ ws ≠ [] ∧ ws.all isPySpace = true ∧
    tok ≠ [] ∧ tok.all isLowerHyphen = true ∧
    rest.length < cs.length ∧
    ∃ rdrop after, rest = rdrop ++ after ∧ rdrop.all isLowerHyphen = true ∧
      (∀ c, after.head? = some c → isLowerHyphen c = false) ∧
      lbp (tok ++ rdrop) after.head? = some tok := by
  simp only [tryClassMatch] at h
  split at h
  · cases h
  · rename_i hwne
    split at h
    · cases h
    · rename_i hrne
      cases hlbp : lbp ((cs.dropWhile isPySpace).takeWhile isLowerHyphen)
          ((cs.dropWhile isPySpace).dropWhile isLowerHyphen).head? with
      | none => rw [hlbp] at h; cases h
      | some tokx =>
        rw [hlbp] at h
        simp only [Option.some.injEq, Prod.mk.injEq] at h
        obtain ⟨hws, htokx, hrest⟩ := h
        obtain ⟨d, hd, htokne⟩ := lbp_prefix _ _ _ hlbp
        rw [← hws, ← htokx, ← hrest]
        have hdrop : (List.takeWhile isLowerHyphen
            (List.dropWhile isPySpace cs)).drop tokx.length = d := by
          rw [hd, List.drop_left]
        have hLH : (List.takeWhile isLowerHyphen
            (List.dropWhile isPySpace cs)).all isLowerHyphen = true :=
          all_takeWhile _ _
        rw [hd, List.all_append] at hLH
        obtain ⟨htokLH, hdLH⟩ := Bool.and_eq_true_iff.mp hLH
        have hwsne : cs.takeWhile isPySpace ≠ [] := by
          intro hn
          rw [hn] at hwne
          exact hwne rfl
        have hcs : cs = cs.takeWhile isPySpace ++ (tokx ++
            (d ++ (cs.dropWhile isPySpace).dropWhile isLowerHyphen)) := by
          conv_lhs => rw [← List.takeWhile_append_dropWhile isPySpace cs]
          congr 1
          conv_lhs => rw [← List.takeWhile_append_dropWhile isLowerHyphen
            (cs.dropWhile isPySpace)]
          rw [hd]
          simp [List.append_assoc]
        refine ⟨?_, hwsne, all_takeWhile _ _, htokne, htokLH, ?_,
          d, (cs.dropWhile isPySpace).dropWhile isLowerHyphen, ?_, hdLH, ?_, ?_⟩
        · rw [hdrop]
          exact hcs
        · rw [hdrop]
          conv_rhs => rw [hcs]
          simp only [List.length_append]
          cases hw : cs.takeWhile isPySpace with
          | nil => exact absurd hw hwsne
          | cons w wsx =>
            cases ht2 : tokx with
            | nil => exact absurd ht2 htokne
            | cons t tsx =>
              simp only [List.length_cons]
              omega
        · rw [hdrop]
        · exact dropWhile_head_false isLowerHyphen (cs.dropWhile isPySpace)
        · rw [← hd]
          exact hlbp

theorem headline_head (l : List Char) :
    ∀ c, ((splitLines l).headD []).head? = some c → l.head? = some c := by
  cases l with
  | nil => intro c h; simp [splitLines] at h
  | cons a as =>
    intro c h
    by_cases ha : a = '\n'
    · subst ha
      rw [splitLines_cons_nl] at h
      simp at h
    · rw [splitLines_cons_ne a as ha] at h
      cases hs : splitLines as with
      | nil => exact absurd hs (splitLines_ne_nil as)
      | cons l0 ls =>
        rw [hs] at h
        simp only [List.modifyHead_cons, List.headD_cons, List.head?_cons,
          Option.some.injEq] at h
        rw [← h]
        rfl

theorem headline_head_cons (a : Char) (as : List Char) (ha : ¬ a = '\n') :
    ((splitLines (a :: as)).headD []).head? = some a := by
  rw [splitLines_cons_ne a as ha]
  cases hs : splitLines as with
  | nil => exact absurd hs (splitLines_ne_nil as)
  | cons l0 ls => rfl

/-- The per-line decomposition of a matched line is unique: the whitespace
group, the token and the rest are forced, and the word boundary of the
match agrees with the per-line boundary. -/
theorem classLineGood_unique (wk tokm rdrop after ws2 tok2 rest2 : List Char)
    (hwk : wk.all isPySpace = true)
    (htm : tokm ≠ []) (htmLH : tokm.all isLowerHyphen = true)
    (hrdLH : rdrop.all isLowerHyphen = true)
    (hafter : ∀ c, after.head? = some c → isLowerHyphen c = false)
    (hgood : ClassLineGood
      (wk ++ (tokm ++ (rdrop ++ (splitLines after).headD []))) ws2 tok2 rest2) :
    ws2 = wk ∧ tok2 = tokm ++ rdrop ∧ rest2 = (splitLines after).headD [] ∧
    ∃ cl, (tokm ++ rdrop).getLast? = some cl ∧
      ¬ isWordChar cl = nextIsWord after.head? := by
  obtain ⟨hdec, hws2ne, hws2sp, htok2ne, htok2LH, hrest2LH, ⟨cl, hcl, hclw⟩,
    hrest2w⟩ := hgood
  have hlaLH : ∀ c, ((splitLines after).headD []).head? = some c →
      isLowerHyphen c = false :=
    fun c hc => hafter c (headline_head after c hc)
  have headNonSp : ∀ c,
      (tokm ++ (rdrop ++ (splitLines after).headD [])).head? = some c →
      isPySpace c = false := by
    cases tokm with
    | nil => exact absurd rfl htm
    | cons t ts =>
      intro c hc
      simp only [List.cons_append, List.head?_cons, Option.some.injEq] at hc
      rw [← hc]
      exact isLowerHyphen_not_space t
        (List.all_eq_true.mp htmLH t (List.mem_cons_self t ts))
  have headNonSp2 : ∀ c, (tok2 ++ rest2).head? = some c → isPySpace c = false := by
    cases tok2 with
    | nil => exact absurd rfl htok2ne
    | cons t ts =>
      intro c hc
      simp only [List.cons_append, List.head?_cons, Option.some.injEq] at hc
      rw [← hc]
      exact isLowerHyphen_not_space t
        (List.all_eq_true.mp htok2LH t (List.mem_cons_self t ts))
  have h1 : (wk ++ (tokm ++ (rdrop ++ (splitLines after).headD []))).takeWhile
      isPySpace = wk := by
    rw [takeWhile_append_all isPySpace wk _ (List.all_eq_true.mp hwk),
      takeWhile_nil_of_head isPySpace _ headNonSp, List.append_nil]
  have h2 : (ws2 ++ (tok2 ++ rest2)).takeWhile isPySpace = ws2 := by
    rw [takeWhile_append_all isPySpace ws2 _ (List.all_eq_true.mp hws2sp),
      takeWhile_nil_of_head isPySpace _ headNonSp2, List.append_nil]
  rw [List.append_assoc] at hdec
  have hws2 : ws2 = wk := by rw [← h1, ← h2, ← hdec]
  rw [hws2] at hdec
  have happ : tokm ++ (rdrop ++ (splitLines after).headD []) = tok2 ++ rest2 :=
    List.append_cancel_left hdec
  have h3 : (tokm ++ (rdrop ++ (splitLines after).headD [])).takeWhile
      isLowerHyphen = tokm ++ rdrop := by
    rw [takeWhile_append_all isLowerHyphen tokm _ (List.all_eq_true.mp htmLH),
      takeWhile_append_all isLowerHyphen rdrop _ (List.all_eq_true.mp hrdLH),
      takeWhile_nil_of_head isLowerHyphen _ hlaLH, List.append_nil]
  have h4 : (tok2 ++ rest2).takeWhile isLowerHyphen = tok2 := by
    rw [takeWhile_append_all isLowerHyphen tok2 _ (List.all_eq_true.mp htok2LH),
      takeWhile_nil_of_head isLowerHyphen _ hrest2LH, List.append_nil]
  have htok2 : tok2 = tokm ++ rdrop := by rw [← h4, ← happ, h3]
  have hrest2 : rest2 = (splitLines after).headD [] := by
    rw [htok2, List.append_assoc] at happ
    exact (List.append_cancel_left (List.append_cancel_left happ)).symm
  refine ⟨hws2, htok2, hrest2, cl, by rw [← htok2]; exact hcl, ?_⟩
  cases hah : after.head? with
  | none =>
    rw [show nextIsWord none = false from rfl, hclw]
    simp
  | some a =>
    by_cases han : a = '\n'
    · subst han
      rw [show nextIsWord (some '\n') = false from by decide, hclw]
      simp
    · cases after with
      | nil => simp at hah
      | cons a0 as0 =>
        simp only [List.head?_cons, Option.some.injEq] at hah
        subst hah
        have hla : ((splitLines (a0 :: as0)).headD []).head? = some a0 :=
          headline_head_cons a0 as0 han
        have hw : isWordChar a0 = false := by
          apply hrest2w
          rw [hrest2]
          exact hla
        rw [show nextIsWord (some a0) = isWordChar a0 from rfl, hw, hclw]
        simp

/-- A line start whose first line is a good class line makes the match
succeed with exactly the line's whitespace group and token. -/
theorem tryClassMatch_of_good (cs ws tok rest : List Char)
    (hgood : ClassLineGood ((splitLines cs).headD []) ws tok rest) :
    ∃ v, tryClassMatch cs = some (ws, tok, v) := by
  obtain ⟨hdec, hwsne, hwssp, htokne, htokLH, hrestLH, ⟨cl, hcl, hclw⟩,
    hrestw⟩ := hgood
  obtain ⟨tl, hcs, htl⟩ := headline_decomp cs
  rw [hdec] at hcs
  have hcs2 : cs = ws ++ (tok ++ (rest ++ tl)) := by
    rw [hcs]
    simp [List.append_assoc]
  have headNonSp : ∀ c, (tok ++ (rest ++ tl)).head? = some c →
      isPySpace c = false := by
    cases tok with
    | nil => exact absurd rfl htokne
    | cons t ts =>
      intro c hc
      simp only [List.cons_append, List.head?_cons, Option.some.injEq] at hc
      rw [← hc]
      exact isLowerHyphen_not_space t
        (List.all_eq_true.mp htokLH t (List.mem_cons_self t ts))
  have hrtlLH : ∀ c, (rest ++ tl).head? = some c → isLowerHyphen c = false := by
    cases rest with
    | cons r0 rs =>
      intro c hc
      simp only [List.cons_append, List.head?_cons, Option.some.injEq] at hc
      rw [← hc]
      exact hrestLH r0 rfl
    | nil =>
      rcases htl with rfl | ⟨tl2, rfl⟩
      · intro c hc; simp at hc
      · intro c hc
        simp only [List.nil_append, List.head?_cons, Option.some.injEq] at hc
        rw [← hc]
        decide
  have h1 : cs.takeWhile isPySpace = ws := by
    rw [hcs2, takeWhile_append_all isPySpace ws _ (List.all_eq_true.mp hwssp),
      takeWhile_nil_of_head isPySpace _ headNonSp, List.append_nil]
  have h2 : cs.dropWhile isPySpace = tok ++ (rest ++ tl) := by
    rw [hcs2, dropWhile_append_all isPySpace ws _ (List.all_eq_true.mp hwssp),
      dropWhile_self_of_head isPySpace _ headNonSp]
  have h3 : (cs.dropWhile isPySpace).takeWhile isLowerHyphen = tok := by
    rw [h2, takeWhile_append_all isLowerHyphen tok _ (List.all_eq_true.mp htokLH),
      takeWhile_nil_of_head isLowerHyphen _ hrtlLH, List.append_nil]
  have h4 : (cs.dropWhile isPySpace).dropWhile isLowerHyphen = rest ++ tl := by
    rw [h2, dropWhile_append_all isLowerHyphen tok _ (List.all_eq_true.mp htokLH),
      dropWhile_self_of_head isLowerHyphen _ hrtlLH]
  have hbound : ¬ isWordChar cl = nextIsWord (rest ++ tl).head? := by
    cases rest with
    | cons r0 rs =>
      rw [show ((r0 :: rs) ++ tl).head? = some r0 from rfl,
        show nextIsWord (some r0) = isWordChar r0 from rfl, hrestw r0 rfl, hclw]
      simp
    | nil =>
      rcases htl with rfl | ⟨tl2, rfl⟩
      · rw [hclw]; decide
      · simp only [List.nil_append, List.head?_cons]
        rw [show nextIsWord (some '\n') = false from by decide, hclw]
        simp
  have h5 : lbp tok (rest ++ tl).head? = some tok := lbp_full tok _ cl hcl hbound
  refine ⟨rest ++ tl, ?_⟩
  simp only [tryClassMatch]
  rw [h2] at h3 h4
  rw [h1, h2, h3, h4, h5]
  rw [if_neg (by cases hws : ws with
    | nil => exact absurd hws hwsne
    | cons w wsx => subst hws; simp),
    if_neg (by cases ht : tok with
    | nil => exact absurd ht htokne
    | cons t tsx => subst ht; simp)]
  simp [List.drop_length]

theorem classLineGood_nil_false (ws tok rest : List Char) :
    ¬ ClassLineGood [] ws tok rest :=
  classLineGood_not_space [] ws tok rest (by simp)

theorem getD_mem_or_nil (l : List (List Char)) (i : Nat) :
    l.getD i [] ∈ l ∨ l.getD i [] = [] := by
  induction l generalizing i with
  | nil => exact Or.inr (by cases i <;> rfl)
  | cons x xs ih =>
    cases i with
    | zero => exact Or.inl (List.mem_cons_self x xs)
    | succ i =>
      rw [List.getD_cons_succ]
      rcases ih i with h | h
      · exact Or.inl (List.mem_cons_of_mem x h)
      · exact Or.inr h

theorem splitLines_getD_space (ws : List Char) (hsp : ws.all isPySpace = true)
    (i : Nat) : ∀ c ∈ (splitLines ws).getD i [], isPySpace c = true := by
  intro c hc
  rcases getD_mem_or_nil (splitLines ws) i with h | h
  · exact List.all_eq_true.mp hsp c (mem_of_mem_splitLines ws _ h c hc)
  · rw [h] at hc
    cases hc

theorem getLastD_mem (l : List (List Char)) (d : List Char) (hl : l ≠ []) :
    l.getLastD d ∈ l := by
  induction l generalizing d with
  | nil => exact absurd rfl hl
  | cons x xs ih =>
    rw [List.getLastD_cons]
    cases xs with
    | nil => exact List.mem_singleton.mpr rfl
    | cons a as => exact List.mem_cons_of_mem x (ih x (by simp))

theorem modifyHead_ne_nil (f : List Char → List Char) (l : List (List Char))
    (h : l ≠ []) : List.modifyHead f l ≠ [] := by
  cases l with
  | nil => exact absurd rfl h
  | cons x xs => simp

theorem getD_zero_headD (l : List (List Char)) (h : l ≠ []) :
    l.getD 0 [] = l.headD [] := by
  cases l with
  | nil => exact absurd rfl h
  | cons x xs => rfl

/-- Per-line behaviour of the `^(\s+)([a-z-]+)\b` MULTILINE scan: the number
of lines is preserved; when the scan starts mid-line (`b = false`) the first
line is copied verbatim; and every scanned line that matches the pattern
(nonempty whitespace, then a maximal lowercase-hyphen token ending at a word
boundary) is rewritten to the same whitespace, the callback's replacement
for the token, and the unchanged remainder of the line. -/
theorem classSubGo_per_line (F : SubCb)
    (hF : ∀ (tok : List Char) (rep : String) (pg : List Page) (rq : List String),
      tok.all isLowerHyphen = true → F ⟨tok⟩ = some (rep, pg, rq) →
      ∀ c ∈ rep.data, ¬ c = '\n') :
    ∀ (fuel : Nat) (b : Bool) (cs out : List Char) (pg : List Page)
      (rq : List String), cs.length ≤ fuel →
      classSubGo F fuel b cs = some (out, pg, rq) →
      (splitLines out).length = (splitLines cs).length ∧
      (b = false → (splitLines out).headD [] = (splitLines cs).headD []) ∧
      ∀ (i : Nat) (ws tok rest : List Char), (1 ≤ i ∨ b = true) →
        ClassLineGood ((splitLines cs).getD i []) ws tok rest →
        ∃ (rep : String) (pg1 : List Page) (rq1 : List String),
          F ⟨tok⟩ = some (rep, pg1, rq1) ∧
          (splitLines out).getD i [] = ws ++ rep.data ++ rest := by
  intro fuel
  induction fuel with
  | zero =>
    intro b cs out pg rq hlen h
    have hcs : cs = [] := List.eq_nil_of_length_eq_zero (Nat.le_zero.mp hlen)
    subst hcs
    have hout : out = [] := by
      rw [show classSubGo F 0 b [] = some ([], [], []) from rfl] at h
      exact ((Prod.mk.injEq _ _ _ _).mp (Option.some.inj h)).1.symm
    subst hout
    refine ⟨rfl, fun _ => rfl, ?_⟩
    intro i ws tok rest _ hgood
    exfalso
    have hline : (splitLines ([] : List Char)).getD i [] = [] := by
      cases i <;> rfl
    rw [hline] at hgood
    exact classLineGood_nil_false ws tok rest hgood
  | succ fuel ih =>
    intro b cs out pg rq hlen h
    cases cs with
    | nil =>
      have hout : out = [] := by
        rw [show classSubGo F (fuel + 1) b [] = some ([], [], []) from rfl] at h
        exact ((Prod.mk.injEq _ _ _ _).mp (Option.some.inj h)).1.symm
      subst hout
      refine ⟨rfl, fun _ => rfl, ?_⟩
      intro i ws tok rest _ hgood
      exfalso
      have hline : (splitLines ([] : List Char)).getD i [] = [] := by
        cases i <;> rfl
      rw [hline] at hgood
      exact classLineGood_nil_false ws tok rest hgood
    | cons c cs =>
      have hlen' : cs.length ≤ fuel := by
        simp only [List.length_cons] at hlen
        omega
      simp only [classSubGo] at h
      cases b with
      | false =>
        rw [show (if (false : Bool) then tryClassMatch (c :: cs) else none) =
          none from rfl] at h
        cases hrec : classSubGo F fuel (c = '\n') cs with
        | none =>
          simp only [hrec] at h
          exact Option.noConfusion h
        | some t =>
          obtain ⟨out1, pg1, rq1⟩ := t
          simp only [hrec, Option.some.injEq, Prod.mk.injEq] at h
          obtain ⟨hout, hpg, hrq⟩ := h
          subst hout
          obtain ⟨ihlen, ihhead, ihline⟩ :=
            ih (c = '\n') cs out1 pg1 rq1 hlen' hrec
          by_cases hc : c = '\n'
          · subst hc
            refine ⟨?_, ?_, ?_⟩
            · rw [splitLines_cons_nl, splitLines_cons_nl]
              simp [ihlen]
            · intro _
              rw [splitLines_cons_nl, splitLines_cons_nl]
              rfl
            · intro i ws tok rest heli hgood
              cases i with
              | zero =>
                exfalso
                rw [splitLines_cons_nl, show (([] : List Char) ::
                  splitLines cs).getD 0 [] = [] from rfl] at hgood
                exact classLineGood_nil_false ws tok rest hgood
              | succ i =>
                rw [splitLines_cons_nl, List.getD_cons_succ] at hgood
                obtain ⟨rep, pgx, rqx, hFx, hlx⟩ :=
                  ihline i ws tok rest (Or.inr (by decide)) hgood
                refine ⟨rep, pgx, rqx, hFx, ?_⟩
                rw [splitLines_cons_nl, List.getD_cons_succ, hlx]
          · refine ⟨?_, ?_, ?_⟩
            · rw [splitLines_cons_ne c _ hc, splitLines_cons_ne c _ hc,
                List.length_modifyHead, List.length_modifyHead, ihlen]
            · intro _
              rw [splitLines_cons_ne c _ hc, splitLines_cons_ne c _ hc,
                modifyHead_headD _ _ _ (splitLines_ne_nil out1),
                modifyHead_headD _ _ _ (splitLines_ne_nil cs),
                ihhead (by simp [hc])]
            · intro i ws tok rest heli hgood
              cases i with
              | zero =>
                rcases heli with h1 | h1
                · omega
                · cases h1
              | succ i =>
                rw [splitLines_cons_ne c _ hc,
                  modifyHead_getD_ge _ _ _ _ (by omega)] at hgood
                obtain ⟨rep, pgx, rqx, hFx, hlx⟩ :=
                  ihline (i + 1) ws tok rest (Or.inl (by omega)) hgood
                refine ⟨rep, pgx, rqx, hFx, ?_⟩
                rw [splitLines_cons_ne c _ hc,
                  modifyHead_getD_ge _ _ _ _ (by omega), hlx]
      | true =>
        rw [show (if (true : Bool) then tryClassMatch (c :: cs) else none) =
          tryClassMatch (c :: cs) from rfl] at h
        cases hm : tryClassMatch (c :: cs) with
        | none =>
          simp only [hm] at h
          cases hrec : classSubGo F fuel (c = '\n') cs with
          | none =>
            simp only [hrec] at h
            exact Option.noConfusion h
          | some t =>
            obtain ⟨out1, pg1, rq1⟩ := t
            simp only [hrec, Option.some.injEq, Prod.mk.injEq] at h
            obtain ⟨hout, hpg, hrq⟩ := h
            subst hout
            obtain ⟨ihlen, ihhead, ihline⟩ :=
              ih (c = '\n') cs out1 pg1 rq1 hlen' hrec
            have hnolineO : ∀ (ws tok rest : List Char),
                ¬ ClassLineGood ((splitLines (c :: cs)).getD 0 []) ws tok rest := by
              intro ws tok rest hgood
              rw [getD_zero_headD _ (splitLines_ne_nil _)] at hgood
              obtain ⟨v, hv⟩ := tryClassMatch_of_good (c :: cs) ws tok rest hgood
              rw [hm] at hv
              cases hv
            by_cases hc : c = '\n'
            · subst hc
              refine ⟨?_, ?_, ?_⟩
              · rw [splitLines_cons_nl, splitLines_cons_nl]
                simp [ihlen]
              · intro _
                rw [splitLines_cons_nl, splitLines_cons_nl]
                rfl
              · intro i ws tok rest heli hgood
                cases i with
                | zero => exact absurd hgood (hnolineO ws tok rest)
                | succ i =>
                  rw [splitLines_cons_nl, List.getD_cons_succ] at hgood
                  obtain ⟨rep, pgx, rqx, hFx, hlx⟩ :=
                    ihline i ws tok rest (Or.inr (by decide)) hgood
                  refine ⟨rep, pgx, rqx, hFx, ?_⟩
                  rw [splitLines_cons_nl, List.getD_cons_succ, hlx]
            · refine ⟨?_, ?_, ?_⟩
              · rw [splitLines_cons_ne c _ hc, splitLines_cons_ne c _ hc,
                  List.length_modifyHead, List.length_modifyHead, ihlen]
              · intro _
                rw [splitLines_cons_ne c _ hc, splitLines_cons_ne c _ hc,
                  modifyHead_headD _ _ _ (splitLines_ne_nil out1),
                  modifyHead_headD _ _ _ (splitLines_ne_nil cs),
                  ihhead (by simp [hc])]
              · intro i ws tok rest heli hgood
                cases i with
                | zero => exact absurd hgood (hnolineO ws tok rest)
                | succ i =>
                  rw [splitLines_cons_ne c _ hc,
                    modifyHead_getD_ge _ _ _ _ (by omega)] at hgood
                  obtain ⟨rep, pgx, rqx, hFx, hlx⟩ :=
                    ihline (i + 1) ws tok rest (Or.inl (by omega)) hgood
                  refine ⟨rep, pgx, rqx, hFx, ?_⟩
                  rw [splitLines_cons_ne c _ hc,
                    modifyHead_getD_ge _ _ _ _ (by omega), hlx]
        | some m =>
          obtain ⟨ws0, tok0, rest0⟩ := m
          simp only [hm] at h
          cases hFtok : F ⟨tok0⟩ with
          | none =>
            simp only [hFtok] at h
            exact Option.noConfusion h
          | some fr =>
            obtain ⟨rep, pgF, rqF⟩ := fr
            simp only [hFtok] at h
            cases hrec : classSubGo F fuel false rest0 with
            | none =>
              simp only [hrec] at h
              exact Option.noConfusion h
            | some t =>
              obtain ⟨out1, pg1, rq1⟩ := t
              simp only [hrec, Option.some.injEq, Prod.mk.injEq] at h
              obtain ⟨hout, hpg, hrq⟩ := h
              subst hout
              obtain ⟨hcseq, hwsne, hwssp, htokne, htokLH, hrlen,
                rdrop, after, hrest0, hrdLH, hafterLH, hlbp⟩ :=
                tryClassMatch_some (c :: cs) ws0 tok0 rest0 hm
              have hrlen' : rest0.length ≤ fuel := by
                simp only [List.length_cons] at hrlen hlen
                omega
              obtain ⟨ihlen, ihhead, ihline⟩ :=
                ih false rest0 out1 pg1 rq1 hrlen' hrec
              have hrepNl : ∀ x ∈ rep.data, ¬ x = '\n' :=
                hF tok0 rep pgF rqF htokLH hFtok
              have hnoNl1 : ∀ x ∈ tok0 ++ rdrop, ¬ x = '\n' := by
                intro x hx
                rcases List.mem_append.mp hx with hx | hx
                · exact isLowerHyphen_ne_nl x (List.all_eq_true.mp htokLH x hx)
                · exact isLowerHyphen_ne_nl x (List.all_eq_true.mp hrdLH x hx)
              have hnoNl2 : ∀ x ∈ rdrop, ¬ x = '\n' := by
                intro x hx
                exact isLowerHyphen_ne_nl x (List.all_eq_true.mp hrdLH x hx)
              have e1 : c :: cs = ws0 ++ ((tok0 ++ rdrop) ++ after) := by
                rw [hcseq, hrest0]
                simp [List.append_assoc]
              have hsplit_cs : splitLines (c :: cs) =
                  glueLines (splitLines ws0)
                    (List.modifyHead (fun l => (tok0 ++ rdrop) ++ l)
                      (splitLines after)) := by
                rw [e1, splitLines_append, splitLines_append_noNl _ _ hnoNl1]
              have hsplit_out : splitLines (ws0 ++ rep.data ++ out1) =
                  glueLines (splitLines ws0)
                    (List.modifyHead (fun l => rep.data ++ l)
                      (splitLines out1)) := by
                rw [List.append_assoc, splitLines_append,
                  splitLines_append_noNl _ _ hrepNl]
              have hlenA : (splitLines rest0).length = (splitLines after).length := by
                rw [hrest0, splitLines_append_noNl _ _ hnoNl2,
                  List.length_modifyHead]
              refine ⟨?_, ?_, ?_⟩
              · rw [hsplit_out, hsplit_cs,
                  glueLines_length _ _ (splitLines_ne_nil ws0),
                  glueLines_length _ _ (splitLines_ne_nil ws0),
                  List.length_modifyHead, List.length_modifyHead, ihlen, hlenA]
              · intro hbf
                cases hbf
              · intro i ws tok rest heli hgood
                rcases lt_trichotomy i ((splitLines ws0).length - 1) with hik | hik | hik
                · exfalso
                  rw [hsplit_cs, glueLines_getD_lt _ _ i hik] at hgood
                  exact classLineGood_not_space _ ws tok rest
                    (splitLines_getD_space ws0 hwssp i) hgood
                · subst hik
                  rw [hsplit_cs,
                    glueLines_getD_last _ _ (splitLines_ne_nil ws0)
                      (modifyHead_ne_nil _ _ (splitLines_ne_nil after)),
                    List.getLastD_eq_getLast?] at hgood
                  rw [modifyHead_headD _ _ _ (splitLines_ne_nil after)] at hgood
                  rw [← List.getLastD_eq_getLast?, List.append_assoc] at hgood
                  have hwk : ((splitLines ws0).getLastD []).all isPySpace = true := by
                    rw [List.all_eq_true]
                    intro x hx
                    exact List.all_eq_true.mp hwssp x
                      (mem_of_mem_splitLines ws0 _
                        (getLastD_mem (splitLines ws0) [] (splitLines_ne_nil ws0))
                        x hx)
                  obtain ⟨hws2, htok2, hrest2, cl, hcl, hbd⟩ :=
                    classLineGood_unique ((splitLines ws0).getLastD []) tok0 rdrop
                      after ws tok rest hwk htokne htokLH hrdLH hafterLH hgood
                  have hfull := lbp_full (tok0 ++ rdrop) after.head? cl hcl hbd
                  rw [hlbp] at hfull
                  have hrd : rdrop = [] := by
                    have h2 := Option.some.inj hfull
                    have h3 := congrArg List.length h2
                    rw [List.length_append] at h3
                    exact List.eq_nil_of_length_eq_zero (by omega)
                  rw [hrd, List.append_nil] at htok2
                  refine ⟨rep, pgF, rqF, by rw [htok2]; exact hFtok, ?_⟩
                  rw [hsplit_out,
                    glueLines_getD_last _ _ (splitLines_ne_nil ws0)
                      (modifyHead_ne_nil _ _ (splitLines_ne_nil out1)),
                    modifyHead_headD _ _ _ (splitLines_ne_nil out1),
                    ihhead rfl]
                  have hr0 : rest0 = after := by
                    rw [hrest0, hrd, List.nil_append]
                  rw [hr0, hws2, hrest2]
                  simp [List.append_assoc]
                · obtain ⟨j, hj1, hij⟩ :
                    ∃ j, 1 ≤ j ∧ i = (splitLines ws0).length - 1 + j :=
                    ⟨i - ((splitLines ws0).length - 1), by omega, by omega⟩
                  subst hij
                  rw [hsplit_cs,
                    glueLines_getD_ge _ _ (splitLines_ne_nil ws0) j hj1,
                    modifyHead_getD_ge _ _ _ _ hj1] at hgood
                  have hafter_line : (splitLines after).getD j [] =
                      (splitLines rest0).getD j [] := by
                    rw [hrest0, splitLines_append_noNl _ _ hnoNl2,
                      modifyHead_getD_ge _ _ _ _ hj1]
                  rw [hafter_line] at hgood
                  obtain ⟨repx, pgx, rqx, hFx, hlx⟩ :=
                    ihline j ws tok rest (Or.inl hj1) hgood
                  refine ⟨repx, pgx, rqx, hFx, ?_⟩
                  rw [hsplit_out,
                    glueLines_getD_ge _ _ (splitLines_ne_nil ws0) j hj1,
                    modifyHead_getD_ge _ _ _ _ hj1, hlx]

/-- Whenever `_build_object_class_help` succeeds, the text it returns for
splicing into the index is the class page hyperlink (line 89). -/
theorem buildObjectClassHelp_rep (device : String → String) (cls : String)
    (nav : List (String × String)) (rep : String) (pg : List Page)
    (rq : List String)
    (h : buildObjectClassHelp device cls nav = some (rep, pg, rq)) :
    rep = "<a href=\"" ++ (cls ++ ".html") ++ "\">" ++ cls ++ "</a>" := by
  simp only [buildObjectClassHelp] at h
  cases hreq : request device ("help(" ++ cls ++ ")") with
  | none =>
    simp only [hreq] at h
    exact Option.noConfusion h
  | some txt0 =>
    simp only [hreq] at h
    cases hcc : buildClassCommands device cls (cls ++ ".html") nav COMMANDS
        (managerSub txt0) with
    | none =>
      simp only [hcc] at h
      exact Option.noConfusion h
    | some t =>
      obtain ⟨txt, pgx, rqx⟩ := t
      simp only [hcc, Option.some.injEq, Prod.mk.injEq] at h
      exact h.1.symm

/-- The class page hyperlink never contains a newline: the literal pieces
have none and class names consist of `[a-z-]` characters only. -/
theorem classCb_noNl (device : String → String) (tok : List Char)
    (rep : String) (pg : List Page) (rq : List String)
    (htok : tok.all isLowerHyphen = true)
    (h : buildObjectClassHelp device ⟨tok⟩ [("index", "index.html")] =
      some (rep, pg, rq)) :
    ∀ c ∈ rep.data, ¬ c = '\n' := by
  have hrep := buildObjectClassHelp_rep device ⟨tok⟩ _ rep pg rq h
  rw [hrep]
  intro c hc
  simp only [String.data_append, List.mem_append] at hc
  have hlit : ∀ x ∈ "<a href=\"".data, ¬ x = '\n' := by decide
  have hlit2 : ∀ x ∈ ".html".data, ¬ x = '\n' := by decide
  have hlit3 : ∀ x ∈ "\">".data, ¬ x = '\n' := by decide
  have hlit4 : ∀ x ∈ "</a>".data, ¬ x = '\n' := by decide
  have htokNl : ∀ x ∈ tok, ¬ x = '\n' := fun x hx =>
    isLowerHyphen_ne_nl x (List.all_eq_true.mp htok x hx)
  rcases hc with ((((hc | (hc | hc)) | hc) | hc) | hc)
  · exact hlit c hc
  · exact htokNl c hc
  · exact hlit2 c hc
  · exact hlit3 c hc
  · exact htokNl c hc
  · exact hlit4 c hc

/-- **C7** — In the index build, the portion of the topic-substituted text
strictly before the `Implemented objectclasses:` marker is emitted
unchanged by the object-class pass (the index body is that prefix followed
by the substituted suffix); the suffix is transformed line by line with the
number of lines preserved; and every line of the suffix beginning with a
run of leading whitespace followed by a lowercase-and-hyphen identifier
token (ending at a word boundary) has exactly that token replaced by the
class page hyperlink, with the leading whitespace and the remainder of the
line preserved. -/
theorem C7_class_pass_frame_and_lines (device : String → String)
    (txt0 txt1 suffix : String) (pg1 pg2 : List Page) (rq1 rq2 : List String)
    (offset : Nat)
    (hreq : request device "help()" = some txt0)
    (hgen : genericSub (fun topic => buildGenericHelp device topic
      [("index", "index.html")]) txt0 = some (txt1, pg1, rq1))
    (hoff : indexOfSub "Implemented objectclasses:".data txt1.data = some offset)
    (hcls : classSub (fun cls => buildObjectClassHelp device cls
      [("index", "index.html")]) ⟨txt1.data.drop offset⟩ =
      some (suffix, pg2, rq2)) :
    build device = some (pg1 ++ pg2 ++
        [⟨"index.html", "Index",
          (⟨txt1.data.take offset⟩ : String) ++ suffix, []⟩],
      "help()" :: rq1 ++ rq2) ∧
    (splitLines suffix.data).length = (splitLines (txt1.data.drop offset)).length ∧
    ∀ (i : Nat) (ws tok rest : List Char),
      ClassLineGood ((splitLines (txt1.data.drop offset)).getD i []) ws tok rest →
      ∃ (pgc : List Page) (rqc : List String),
        buildObjectClassHelp device ⟨tok⟩ [("index", "index.html")] =
          some ("<a href=\"" ++ ((⟨tok⟩ : String) ++ ".html") ++ "\">" ++
            (⟨tok⟩ : String) ++ "</a>", pgc, rqc) ∧
        (splitLines suffix.data).getD i [] =
          ws ++ ("<a href=\"" ++ ((⟨tok⟩ : String) ++ ".html") ++ "\">" ++
            (⟨tok⟩ : String) ++ "</a>").data ++ rest := by
  have hbuild : build device = some (pg1 ++ pg2 ++
      [⟨"index.html", "Index",
        (⟨txt1.data.take offset⟩ : String) ++ suffix, []⟩],
      "help()" :: rq1 ++ rq2) := by
    simp only [build, hreq, hgen, hoff, hcls]
  have hcls' : classSubGo (fun cls => buildObjectClassHelp device cls
      [("index", "index.html")]) (txt1.data.drop offset).length true
      (txt1.data.drop offset) = some (suffix.data, pg2, rq2) := by
    simp only [classSub] at hcls
    cases hg : classSubGo (fun cls => buildObjectClassHelp device cls
        [("index", "index.html")]) (txt1.data.drop offset).length true
        (txt1.data.drop offset) with
    | none =>
      simp only [hg] at hcls
      exact Option.noConfusion hcls
    | some t =>
      obtain ⟨out, pgx, rqx⟩ := t
      simp only [hg, Option.some.injEq, Prod.mk.injEq] at hcls
      obtain ⟨hs, hp, hr⟩ := hcls
      have hdata : suffix.data = out := (congrArg String.data hs).symm
      rw [hdata, hp, hr]
  obtain ⟨hlenEq, -, hlines⟩ := classSubGo_per_line
    (fun cls => buildObjectClassHelp device cls [("index", "index.html")])
    (fun tok rep pgx rqx htok hcb => classCb_noNl device tok rep pgx rqx htok hcb)
    (txt1.data.drop offset).length true (txt1.data.drop offset) suffix.data
    pg2 rq2 (Nat.le_refl _) hcls'
  refine ⟨hbuild, hlenEq, ?_⟩
  intro i ws tok rest hgood
  obtain ⟨rep, pgc, rqc, hFx, hline⟩ := hlines i ws tok rest (Or.inr rfl) hgood
  have hrep := buildObjectClassHelp_rep device ⟨tok⟩ _ rep pgc rqc hFx
  rw [hrep] at hFx hline
  exact ⟨pgc, rqc, hFx, hline⟩

/-- Witness for C7 at `device1`: the hypotheses are discharged by
computation, the index body keeps the untouched prefix, and the class line
` foo` of the suffix becomes the space followed by the hyperlink. -/
theorem C7_class_pass_frame_and_lines_witness :
    build device1 = some
      ([⟨"foo.get.attr.html", "foo :: get :: attr", "attr info\n",
          [("index", "index.html"), ("foo", "foo.html"), ("get", "foo.html#get"),
           ("attr", "foo.get.attr.html")]⟩,
        ⟨"foo.html", "foo",
          "Manager: 1 (<a href=\"foo.html\">foo</a>)\n\n<a id=\"get\"></a>Options for get command:\n    <a href=\"foo.get.attr.html\">attr</a>\n",
          [("index", "index.html"), ("foo", "foo.html")]⟩,
        ⟨"index.html", "Index",
          "Implemented objectclasses:\n <a href=\"foo.html\">foo</a>\n", []⟩],
       ["help()", "help(foo)", "help(foo,get)", "help(foo,get,attr)",
        "help(foo,set)", "help(foo,create)", "help(foo,delete)",
        "help(foo,request)", "help(foo,release)", "help(foo,link)",
        "help(foo,unlink)", "help(foo,queryObjects)"]) ∧
    (splitLines ("Implemented objectclasses:\n <a href=\"foo.html\">foo</a>\n" :
        String).data).getD 1 [] =
      [' '] ++ ("<a href=\"foo.html\">foo</a>" : String).data ++ [] := by
  have h := C7_class_pass_frame_and_lines device1
    "Implemented objectclasses:\n foo\n" "Implemented objectclasses:\n foo\n"
    "Implemented objectclasses:\n <a href=\"foo.html\">foo</a>\n"
    []
    [⟨"foo.get.attr.html", "foo :: get :: attr", "attr info\n",
       [("index", "index.html"), ("foo", "foo.html"), ("get", "foo.html#get"),
        ("attr", "foo.get.attr.html")]⟩,
     ⟨"foo.html", "foo",
       "Manager: 1 (<a href=\"foo.html\">foo</a>)\n\n<a id=\"get\"></a>Options for get command:\n    <a href=\"foo.get.attr.html\">attr</a>\n",
       [("index", "index.html"), ("foo", "foo.html")]⟩]
    []
    ["help(foo)", "help(foo,get)", "help(foo,get,attr)", "help(foo,set)",
     "help(foo,create)", "help(foo,delete)", "help(foo,request)",
     "help(foo,release)", "help(foo,link)", "help(foo,unlink)",
     "help(foo,queryObjects)"]
    0 (by decide) (by decide) (by decide) (by decide)
  refine ⟨h.1.trans (by decide), ?_⟩
  have hgood : ClassLineGood ((splitLines
      (("Implemented objectclasses:\n foo\n" : String).data.drop 0)).getD 1 [])
      [' '] "foo".data [] := by
    refine ⟨by decide, by decide, by decide, by decide, by decide, ?_,
      ⟨'o', by decide⟩, ?_⟩
    · intro c hc
      exact Option.noConfusion hc
    · intro c hc
      exact Option.noConfusion hc
  obtain ⟨pgc, rqc, hcb, hline⟩ := h.2.2 1 [' '] "foo".data [] hgood
  exact hline.trans (by decide)

end ECoS
